import Mathlib

/-!
Verification of the sweep-dreams scheduling core.

This development shallowly embeds the recurrence-resolution, rule-merging and
notification-decision logic of the repository:
  * src/sweep_dreams/domain/calendar.py
  * src/sweep_dreams/parsing/converters.py
  * scripts/send_notifications.py

Modelling conventions:
  * Python timezone-aware datetimes (all in the single target timezone
    PACIFIC_TZ) are modelled as wall-clock instants: a record of
    year/month/day/hour/minute compared through a proleptic-Gregorian
    minute count (DateTime.toMin).  The code builds datetimes from wall
    components and adds timedeltas, which is wall-clock arithmetic, so this
    is faithful except for daylight-saving anomalies on nonexistent wall
    times, which are outside the scope of the claims.
  * Python sets of small ints (weekdays 0-6, weeks of month 1-5) iterate in
    ascending value order; they are modelled as ascending lists, and
    `next(iter(s))` as taking the head.
  * Exceptions are modelled with Except; each distinct ValueError/KeyError
    site gets its own constructor.
-/

namespace SweepDreams

/-- Gregorian leap-year predicate (Python calendar.isleap). -/
def isLeap (y : Nat) : Bool :=
  decide ((y % 4 = 0 ∧ ¬ y % 100 = 0) ∨ y % 400 = 0)

/-- Length of a year in days. -/
def yearLen (y : Nat) : Nat := if isLeap y then 366 else 365

/-- Days in a Gregorian month (Python calendar.monthrange second component). -/
def daysInMonth (y m : Nat) : Nat :=
  if m = 2 then (if isLeap y then 29 else 28)
  else if m = 4 ∨ m = 6 ∨ m = 9 ∨ m = 11 then 30
  else 31

/-- Days of year `y` that precede month `m` (m counted 1-12). -/
def daysBeforeMonth (y : Nat) : Nat → Nat
  | 0 => 0
  | 1 => 0
  | m + 1 => daysBeforeMonth y m + daysInMonth y m

/-- Days before January 1 of year `y` in the proleptic Gregorian calendar
(year 1 is the first year, matching Python datetime.toordinal). -/
def daysBeforeYear (y : Nat) : Nat :=
  365 * (y - 1) + (y - 1) / 4 - (y - 1) / 100 + (y - 1) / 400

/-- Proleptic Gregorian ordinal of a date; January 1 of year 1 is day 1
(Python date.toordinal). -/
def ordinalOf (y m d : Nat) : Nat :=
  daysBeforeYear y + daysBeforeMonth y m + d

/-- Weekday of a date with Monday = 0 (Python date.weekday). -/
def weekdayOf (y m d : Nat) : Nat := (ordinalOf y m d + 6) % 7

/-- Weekday of the first day of a month (first component of
Python calendar.monthrange). -/
def firstWeekday (y m : Nat) : Nat := weekdayOf y m 1

/-- `_nth_weekday(year, month, weekday, occurrence)` from
src/sweep_dreams/domain/calendar.py: the day of the month of the
`occurrence`-th instance of `weekday`, or none when the month has fewer
instances. -/
def nthWeekday (year month weekday occurrence : Nat) : Option Nat :=
  let fw := firstWeekday year month
  let day := 1 + ((weekday + 7 - fw) % 7) + 7 * (occurrence - 1)
  if day ≤ daysInMonth year month then some day else none

/-- A wall-clock datetime in the target timezone. -/
structure DateTime where
  year : Nat
  month : Nat
  day : Nat
  hour : Nat
  minute : Nat
deriving DecidableEq, Repr

/-- Minutes since the start of the proleptic Gregorian calendar; Python
comparison of (same-zone) datetimes is comparison of these counts. -/
def DateTime.toMin (t : DateTime) : Nat :=
  (ordinalOf t.year t.month t.day) * 1440 + t.hour * 60 + t.minute

/-- toMin as an integer, for arithmetic with subtraction. -/
def DateTime.toMinI (t : DateTime) : Int := (t.toMin : Int)

/-- Datetime at a given whole hour (datetime(year, month, day, hour)). -/
def mkDT (y m d h : Nat) : DateTime := ⟨y, m, d, h, 0⟩

/-- `dt + timedelta(days=1)` on a valid date: wall-clock day increment. -/
def addOneDay (t : DateTime) : DateTime :=
  if t.day + 1 ≤ daysInMonth t.year t.month then { t with day := t.day + 1 }
  else if t.month + 1 ≤ 12 then { t with month := t.month + 1, day := 1 }
  else { t with year := t.year + 1, month := 1, day := 1 }

/-! ## Domain model (src/sweep_dreams/domain/models.py) -/

/-- Coordinate pair; the line geometry is only ever compared for equality,
so the float components are modelled as integers. -/
abbrev Coord := Int × Int

/-- Monthly recurrence pattern.  `weekdays` models a Python set of Weekday
(ints 0-6) in its iteration order (ascending for small ints); `weeks_of_month`
models the optional set of week indices, `none` meaning all weeks. -/
structure MonthlyPattern where
  weekdays : List Nat
  weeks_of_month : Option (List Nat)
deriving DecidableEq, Repr

/-- Hour range of a rule (TimeWindow holds time-of-day values; only whole
hours are ever constructed, so the hour suffices). -/
structure TimeWindow where
  start : Nat
  endH : Nat
deriving DecidableEq, Repr

structure RecurringRule where
  pattern : MonthlyPattern
  time_window : TimeWindow
  skip_holidays : Bool
deriving DecidableEq, Repr

structure BlockKey where
  cnn : Nat
  corridor : String
  limits : String
  cnn_right_left : String
  block_side : Option String
deriving DecidableEq, Repr

structure BlockSchedule where
  block : BlockKey
  rules : List RecurringRule
  line : List Coord
deriving DecidableEq, Repr

/-- One raw schedule row (SweepingSchedule). -/
structure SweepingSchedule where
  cnn : Nat
  corridor : String
  limits : String
  cnn_right_left : String
  block_side : Option String
  full_name : String
  week_day : String
  from_hour : Nat
  to_hour : Nat
  week1 : Bool
  week2 : Bool
  week3 : Bool
  week4 : Bool
  week5 : Bool
  holidays : Bool
  block_sweep_id : Nat
  line : List Coord
deriving DecidableEq, Repr

/-- ASCII lower-casing of one character; models Python str.lower on the
ASCII weekday labels of the dataset. -/
def lowerChar (c : Char) : Char :=
  if 65 ≤ c.toNat ∧ c.toNat ≤ 90 then Char.ofNat (c.toNat + 32) else c

/-- Models Python str.lower (ASCII). -/
def lowerString (s : String) : String := ⟨s.data.map lowerChar⟩

def isWS (c : Char) : Bool := c = ' ' ∨ c = '\t' ∨ c = '\n' ∨ c = '\r'

/-- Models Python str.strip. -/
def trimString (s : String) : String :=
  ⟨((s.data.dropWhile isWS).reverse.dropWhile isWS).reverse⟩

/-- _WEEKDAY_LOOKUP from src/sweep_dreams/domain/models.py. -/
def weekdayLookup (s : String) : Option Nat :=
  if s = "mon" ∨ s = "monday" then some 0
  else if s = "tues" ∨ s = "tue" ∨ s = "tuesday" then some 1
  else if s = "wed" ∨ s = "weds" ∨ s = "wednesday" then some 2
  else if s = "thu" ∨ s = "thur" ∨ s = "thurs" ∨ s = "thursday" then some 3
  else if s = "fri" ∨ s = "friday" then some 4
  else if s = "sat" ∨ s = "saturday" then some 5
  else if s = "sun" ∨ s = "sunday" then some 6
  else none

/-- Errors of the scheduling core; each constructor corresponds to one
raise site (ValueError / KeyError) in the source. -/
inductive SDError where
  /-- "Rule has no weekdays configured." -/
  | noWeekdays
  /-- "Rule has no active weeks configured." / "Schedule has no active weeks configured." -/
  | noActiveWeeks
  /-- "Schedule applies only on holidays; ..." -/
  | holidayOnly
  /-- "Unknown weekday label: ..." (next_sweep_window) or the KeyError from
  _WEEKDAY_LOOKUP in the converter. -/
  | unknownWeekday (label : String)
  /-- datetime/time constructor rejects an out-of-range hour. -/
  | invalidHour
  /-- "Unable to compute next sweep window within 12 months." -/
  | noWindow
  /-- "Could not compute sweep window for block ..." -/
  | noValidWindow (block : BlockKey)
  /-- "Inconsistent geometries for block ...: expected ..., got ..." -/
  | geometryMismatch (block : BlockKey) (expected got : List Coord)
  /-- internal: a grouped key with no rows (unreachable). -/
  | emptyGroup
deriving DecidableEq, Repr

/-! ## Occurrence calculator (src/sweep_dreams/domain/calendar.py) -/

/-- Month scanned at `off` months after the reference month, as computed in
the loop header of next_sweep_window_from_rule:
month_index = reference.month - 1 + offset;
year = reference.year + month_index // 12; month = month_index % 12 + 1. -/
def monthAt (refYear refMonth off : Nat) : Nat × Nat :=
  (refYear + (refMonth - 1 + off) / 12, (refMonth - 1 + off) % 12 + 1)

/-- The month offsets examined by the scan: `for month_offset in range(0, 13)`. -/
def scanOffsets : List Nat := List.range 13

/-- The calendar months the occurrence scan examines for a given reference. -/
def monthsExamined (ref : DateTime) : List (Nat × Nat) :=
  scanOffsets.map (monthAt ref.year ref.month)

/-- The candidate window the scan builds for one (year, month, occurrence):
start/end at the rule's hours on the nth weekday, end pushed one day
forward when it does not exceed the start (cross-midnight window). -/
def candidateWindow (year month weekday occ startH endH : Nat) :
    Option (DateTime × DateTime) :=
  match nthWeekday year month weekday occ with
  | none => none
  | some day =>
    let startDt := mkDT year month day startH
    let endDt0 := mkDT year month day endH
    let endDt := if endDt0.toMin ≤ startDt.toMin then addOneDay endDt0 else endDt0
    some (startDt, endDt)

/-- The acceptance test applied to a candidate window: the combination of
`if end_dt <= reference: continue` and
`if start_dt <= reference <= end_dt or start_dt > reference: return`. -/
def windowAccepted (ref startDt endDt : DateTime) : Bool :=
  if endDt.toMin ≤ ref.toMin then false
  else (decide (startDt.toMin ≤ ref.toMin) && decide (ref.toMin ≤ endDt.toMin))
    || decide (ref.toMin < startDt.toMin)

/-- Inner loop: `for occurrence in active_weeks` within one month. -/
def searchOccs (ref : DateTime) (year month weekday startH endH : Nat) :
    List Nat → Option (DateTime × DateTime)
  | [] => none
  | occ :: rest =>
    match candidateWindow year month weekday occ startH endH with
    | none => searchOccs ref year month weekday startH endH rest
    | some (s, e) =>
      if windowAccepted ref s e then some (s, e)
      else searchOccs ref year month weekday startH endH rest

/-- Outer loop: `for month_offset in range(0, 13)`. -/
def searchMonths (ref : DateTime) (weekday startH endH : Nat) (occs : List Nat) :
    List Nat → Option (DateTime × DateTime)
  | [] => none
  | off :: rest =>
    let ym := monthAt ref.year ref.month off
    match searchOccs ref ym.1 ym.2 weekday startH endH occs with
    | some w => some w
    | none => searchMonths ref weekday startH endH occs rest

/-- `sorted(...)` as used on the weeks-of-month sets. -/
def sortWeeks (l : List Nat) : List Nat := l.insertionSort (· ≤ ·)

/-- Active weeks of a rule:
`sorted(weeks_of_month) if weeks_of_month else [1, 2, 3, 4, 5]`.
Both `None` and an empty set are falsy in Python, so each yields all weeks. -/
def activeWeeksOfRule (r : RecurringRule) : List Nat :=
  match r.pattern.weeks_of_month with
  | none => [1, 2, 3, 4, 5]
  | some [] => [1, 2, 3, 4, 5]
  | some ws => sortWeeks ws

/-- next_sweep_window_from_rule (the reference is taken already normalized to
the target timezone, as _normalize_now produces it). -/
def nextSweepWindowFromRule (r : RecurringRule) (ref : DateTime) :
    Except SDError (DateTime × DateTime) :=
  match r.pattern.weekdays with
  | [] => .error .noWeekdays
  | w :: _ =>
    let aw := activeWeeksOfRule r
    if aw = [] then .error .noActiveWeeks
    else
      match searchMonths ref w r.time_window.start r.time_window.endH aw scanOffsets with
      | some (s, e) => .ok (s, e)
      | none => .error .noWindow

/-- Active weeks of a raw row: indices of the true week flags, ascending. -/
def activeWeeksOfRow (s : SweepingSchedule) : List Nat :=
  (if s.week1 then [1] else []) ++ (if s.week2 then [2] else []) ++
  (if s.week3 then [3] else []) ++ (if s.week4 then [4] else []) ++
  (if s.week5 then [5] else [])

/-- next_sweep_window on a raw SweepingSchedule row.  The hour-range check
models the ValueError that datetime() raises on an out-of-range hour. -/
def nextSweepWindow (s : SweepingSchedule) (ref : DateTime) :
    Except SDError (DateTime × DateTime) :=
  let label := lowerString (trimString s.week_day)
  if label = "holiday" then .error .holidayOnly
  else
    match weekdayLookup label with
    | none => .error (.unknownWeekday s.week_day)
    | some w =>
      let aw := activeWeeksOfRow s
      if aw = [] then .error .noActiveWeeks
      else if 24 ≤ s.from_hour ∨ 24 ≤ s.to_hour then .error .invalidHour
      else
        match searchMonths ref w s.from_hour s.to_hour (sortWeeks aw) scanOffsets with
        | some (se) => .ok se
        | none => .error .noWindow

/-! ## Earliest-window resolvers (src/sweep_dreams/domain/calendar.py) -/

/-- earliest_sweep_window: minimum start across the rules of a BlockSchedule,
skipping rules that raise; strict comparison, so the first rule attaining the
minimum start wins. -/
def earliestSweepWindow (bs : BlockSchedule) (ref : DateTime) :
    Except SDError (DateTime × DateTime) :=
  let step := fun (acc : Option (DateTime × DateTime)) (r : RecurringRule) =>
    match nextSweepWindowFromRule r ref with
    | .error _ => acc
    | .ok (s, e) =>
      match acc with
      | none => some (s, e)
      | some (s0, e0) =>
        if s.toMin < s0.toMin then some (s, e) else some (s0, e0)
  match bs.rules.foldl step none with
  | some w => .ok w
  | none => .error (.noValidWindow bs.block)

/-- One loop iteration of earliest_sweep_window_with_block_id: keep the
incumbent unless this row's window starts strictly earlier, or starts at
the same instant with a numerically smaller block_sweep_id. -/
def eswbiStep (ref : DateTime) (acc : Option (DateTime × DateTime × Nat))
    (s : SweepingSchedule) : Option (DateTime × DateTime × Nat) :=
  match nextSweepWindow s ref with
  | .error _ => acc
  | .ok (st, en) =>
    match acc with
    | none => some (st, en, s.block_sweep_id)
    | some (s0, e0, i0) =>
      if st.toMin < s0.toMin ∨ (st.toMin = s0.toMin ∧ s.block_sweep_id < i0)
      then some (st, en, s.block_sweep_id)
      else some (s0, e0, i0)

/-- earliest_sweep_window_with_block_id: same minimum over the raw rows,
carrying the row id; ties on start prefer the smaller block_sweep_id. -/
def earliestSweepWindowWithBlockId (bs : BlockSchedule)
    (src : List SweepingSchedule) (ref : DateTime) :
    Except SDError (DateTime × DateTime × Nat) :=
  match src.foldl (eswbiStep ref) none with
  | some t => .ok t
  | none => .error (.noValidWindow bs.block)

/-- Loop invariant of the earliest-window fold: a none accumulator means no
processed row resolved, and a some accumulator is a resolved window of a
processed row whose (start, id) is lexicographically least among the
processed resolved rows. -/
def EswbiInv (ref : DateTime) (P : List SweepingSchedule)
    (acc : Option (DateTime × DateTime × Nat)) : Prop :=
  match acc with
  | none => ∀ row ∈ P, ∀ st en, nextSweepWindow row ref ≠ .ok (st, en)
  | some (s0, e0, i0) =>
    (∃ row ∈ P, row.block_sweep_id = i0 ∧ nextSweepWindow row ref = .ok (s0, e0)) ∧
    (∀ row ∈ P, ∀ st en, nextSweepWindow row ref = .ok (st, en) →
      s0.toMin < st.toMin ∨ (s0.toMin = st.toMin ∧ i0 ≤ row.block_sweep_id))

/-! ## Rule merger (src/sweep_dreams/parsing/converters.py,
sweeping_schedules_to_blocks) -/

/-- BlockKey extracted from a row. -/
def blockKeyOf (s : SweepingSchedule) : BlockKey :=
  ⟨s.cnn, s.corridor, s.limits, s.cnn_right_left, s.block_side⟩

/-- Group keys in first-appearance order (Python dict key order). -/
def insertKey (ks : List BlockKey) (k : BlockKey) : List BlockKey :=
  if k ∈ ks then ks else ks ++ [k]

def groupKeys (ss : List SweepingSchedule) : List BlockKey :=
  ss.foldl (fun ks s => insertKey ks (blockKeyOf s)) []

/-- weeks_of_month of a row's rule:
`{i for i in range(1, 6) if getattr(sched, f"week{i}")} or None`. -/
def weeksFromFlags (s : SweepingSchedule) : Option (List Nat) :=
  match activeWeeksOfRow s with
  | [] => none
  | ws => some ws

/-- Union of two weekday sets (`existing.pattern.weekdays |= rule.pattern.weekdays`);
iteration order of the resulting small-int set is ascending. -/
def unionWeekdays (a b : List Nat) : List Nat :=
  sortWeeks (a ++ b.filter (fun x => decide (x ∉ a)))

/-- Conversion of one row to a RecurringRule inside the converter; the hour
check models the ValueError raised by time() on an out-of-range hour, and a
missing weekday label models the KeyError of _WEEKDAY_LOOKUP. -/
def toRule (s : SweepingSchedule) : Except SDError RecurringRule :=
  match weekdayLookup (lowerString s.week_day) with
  | none => .error (.unknownWeekday s.week_day)
  | some w =>
    if 24 ≤ s.from_hour ∨ 24 ≤ s.to_hour then .error .invalidHour
    else .ok
      { pattern := { weekdays := [w], weeks_of_month := weeksFromFlags s }
        time_window := ⟨s.from_hour, s.to_hour⟩
        skip_holidays := s.holidays }

/-- Merge compatibility: identical time_window, weeks_of_month and
skip_holidays. -/
def mergeCompatible (a b : RecurringRule) : Bool :=
  decide (a.time_window = b.time_window) &&
  decide (a.pattern.weeks_of_month = b.pattern.weeks_of_month) &&
  decide (a.skip_holidays = b.skip_holidays)

/-- Union a rule's weekday set into a merged entry. -/
def absorbWeekdays (e r : RecurringRule) : RecurringRule :=
  { e with pattern :=
      { e.pattern with weekdays := unionWeekdays e.pattern.weekdays r.pattern.weekdays } }

/-- Merge one rule into the already-emitted list: union into the first
compatible entry, else append. -/
def mergeInto : List RecurringRule → RecurringRule → List RecurringRule
  | [], r => [r]
  | e :: rest, r =>
    if mergeCompatible e r then absorbWeekdays e r :: rest
    else e :: mergeInto rest r

/-- The greedy per-group merge: scan rules in original order. -/
def mergeRules (rules : List RecurringRule) : List RecurringRule :=
  rules.foldl mergeInto []

/-- Geometry consistency scan over the tail of a group: the line of the
first row that differs from the reference geometry, if any. -/
def badGeometry (geom : List Coord) : List SweepingSchedule → Option (List Coord)
  | [] => none
  | s :: rest => if s.line = geom then badGeometry geom rest else some s.line

/-- Row-by-row conversion of a group; the first failing row aborts, as the
Python loop would raise there. -/
def mapToRules : List SweepingSchedule → Except SDError (List RecurringRule)
  | [] => .ok []
  | s :: rest =>
    match toRule s with
    | .error err => .error err
    | .ok r =>
      match mapToRules rest with
      | .error err => .error err
      | .ok rs => .ok (r :: rs)

/-- Processing of one block group: geometry validation, row conversion,
greedy merge. -/
def processGroup (k : BlockKey) : List SweepingSchedule → Except SDError BlockSchedule
  | [] => .error .emptyGroup
  | first :: rest =>
    match badGeometry first.line rest with
    | some bad => .error (.geometryMismatch k first.line bad)
    | none =>
      match mapToRules (first :: rest) with
      | .error err => .error err
      | .ok rules => .ok ⟨k, mergeRules rules, first.line⟩

/-- Group-by-group processing in key order; the first failing group aborts. -/
def mapGroups (ss : List SweepingSchedule) :
    List BlockKey → Except SDError (List BlockSchedule)
  | [] => .ok []
  | k :: ks =>
    match processGroup k (ss.filter (fun s => decide (blockKeyOf s = k))) with
    | .error err => .error err
    | .ok bs =>
      match mapGroups ss ks with
      | .error err => .error err
      | .ok rest => .ok (bs :: rest)

/-- sweeping_schedules_to_blocks. -/
def sweepingSchedulesToBlocks (ss : List SweepingSchedule) :
    Except SDError (List BlockSchedule) :=
  mapGroups ss (groupKeys ss)

/-! ## Notification decision (scripts/send_notifications.py, should_send) -/

/-- A subscription record as far as the decision function consumes it. -/
structure SubscriptionRecord where
  device_token : String
  lead_minutes : Nat
  last_notified_at : Option DateTime
deriving DecidableEq, Repr

/-- should_send: computes the next window for the row's block and decides
whether to notify now.  Returns (send flag, window start, window end,
notification time); the notification time is kept as its minute count,
since the function only ever compares and reports it. -/
def shouldSend (record : SubscriptionRecord) (schedule : SweepingSchedule)
    (now windowEnd : DateTime) :
    Except SDError (Bool × Option DateTime × Option DateTime × Option Int) :=
  match sweepingSchedulesToBlocks [schedule] with
  | .error err => .error err
  | .ok [] => .ok (false, none, none, none)
  | .ok (blockSchedule :: _) =>
    match earliestSweepWindow blockSchedule now with
    | .error err => .error err
    | .ok (start, endd) =>
      if start.toMin ≤ now.toMin then
        .ok (false, some start, some endd, none)
      else
        let notifyAt : Int := start.toMinI - (record.lead_minutes : Int)
        if notifyAt < now.toMinI then
          match record.last_notified_at with
          | some ln =>
            if notifyAt ≤ ln.toMinI then .ok (false, some start, some endd, some now.toMinI)
            else .ok (true, some start, some endd, some now.toMinI)
          | none => .ok (true, some start, some endd, some now.toMinI)
        else if windowEnd.toMinI ≤ notifyAt then
          .ok (false, some start, some endd, some notifyAt)
        else
          match record.last_notified_at with
          | some ln =>
            if notifyAt ≤ ln.toMinI then .ok (false, some start, some endd, some notifyAt)
            else .ok (true, some start, some endd, some notifyAt)
          | none => .ok (true, some start, some endd, some notifyAt)

/-! ## Derived quantities used in the statements and proofs -/

/-- Ordinal of the first day of a (year, month) pair. -/
def monthStartOrd (ym : Nat × Nat) : Nat :=
  daysBeforeYear ym.1 + daysBeforeMonth ym.1 ym.2

/-- Length of the month scanned at offset `k` from the reference month. -/
def dimAt (refY refM k : Nat) : Nat :=
  daysInMonth (monthAt refY refM k).1 (monthAt refY refM k).2

deriving instance DecidableEq for Except

/-! ## Concrete fixtures used in counterexamples and witnesses -/

/-- Thursday, 5th occurrence only, 23:00-02:00 (cross-midnight). -/
def ruleThu5Night : RecurringRule := ⟨⟨[3], some [5]⟩, ⟨23, 2⟩, false⟩

/-- Friday, 2nd and 4th occurrence, 12:00-14:00 (the rule used throughout
the repository's own tests). -/
def ruleFri24 : RecurringRule := ⟨⟨[4], some [2, 4]⟩, ⟨12, 14⟩, false⟩

/-- Monday, 1st occurrence, 23:00-01:00 (cross-midnight). -/
def ruleMon1Night : RecurringRule := ⟨⟨[0], some [1]⟩, ⟨23, 1⟩, false⟩

/-- A rule whose only week index is 6: no month ever has a sixth occurrence
of a weekday, so the whole horizon is scanned fruitlessly. -/
def ruleWeek6 : RecurringRule := ⟨⟨[0], some [6]⟩, ⟨10, 12⟩, false⟩

/-- Tuesday row, weeks 1 and 3, 10:00-12:00, row id 7. -/
def rowTue : SweepingSchedule :=
  ⟨123, "Main St", "A St - B St", "R", some "East", "Tue 1st, 3rd", "Tues",
    10, 12, true, false, true, false, false, false, 7, [(1, 2)]⟩

/-- Same block and pattern as rowTue but on Thursday, row id 8. -/
def rowThu : SweepingSchedule := { rowTue with week_day := "Thu", block_sweep_id := 8 }

/-- rowThu with an extra active week, so it cannot merge with rowTue. -/
def rowThuWeeks : SweepingSchedule := { rowThu with week2 := true }

/-- rowThu with a different line geometry. -/
def rowThuGeom : SweepingSchedule := { rowThu with line := [(3, 4)] }

/-- rowTue with every week flag false. -/
def rowTueNoWeeks : SweepingSchedule :=
  { rowTue with week1 := false, week3 := false }

/-- A duplicate of rowTue under a different row id, for tie-breaking. -/
def rowTue9 : SweepingSchedule := { rowTue with block_sweep_id := 9 }

/-- Friday row, weeks 2 and 4, 14:00-16:00, for the notification scenarios. -/
def rowFri14 : SweepingSchedule :=
  ⟨123, "Main St", "A St - B St", "R", some "East", "Fri 2nd, 4th", "Fri",
    14, 16, false, true, false, true, false, false, 7, [(1, 2)]⟩

/-- A subscriber with a 60 minute lead that has never been notified. -/
def recNoLast : SubscriptionRecord := ⟨"token-a", 60, none⟩

/-- A subscriber already notified at the ideal time 2024-03-08 13:00. -/
def recNotified : SubscriptionRecord := ⟨"token-a", 60, some ⟨2024, 3, 8, 13, 0⟩⟩

/-- An (otherwise irrelevant) block schedule shell for the resolvers that
only use the block for error payloads. -/
def bsShell : BlockSchedule := ⟨blockKeyOf rowTue, [], [(1, 2)]⟩

/-! ## Calendar arithmetic lemmas -/

theorem daysInMonth_ge (y m : Nat) : 28 ≤ daysInMonth y m := by
  unfold daysInMonth
  split
  · split <;> omega
  · split <;> omega

theorem daysInMonth_le (y m : Nat) : daysInMonth y m ≤ 31 := by
  unfold daysInMonth
  split
  · split <;> omega
  · split <;> omega

theorem daysBeforeMonth_succ (y m : Nat) (h : 1 ≤ m) :
    daysBeforeMonth y (m + 1) = daysBeforeMonth y m + daysInMonth y m := by
  match m, h with
  | n + 1, _ => rfl

theorem yearTotal (y : Nat) :
    daysBeforeMonth y 12 + daysInMonth y 12 = yearLen y := by
  have h12 : daysBeforeMonth y 12 = daysBeforeMonth y 11 + daysInMonth y 11 :=
    daysBeforeMonth_succ y 11 (by omega)
  have h11 : daysBeforeMonth y 11 = daysBeforeMonth y 10 + daysInMonth y 10 :=
    daysBeforeMonth_succ y 10 (by omega)
  have h10 : daysBeforeMonth y 10 = daysBeforeMonth y 9 + daysInMonth y 9 :=
    daysBeforeMonth_succ y 9 (by omega)
  have h9 : daysBeforeMonth y 9 = daysBeforeMonth y 8 + daysInMonth y 8 :=
    daysBeforeMonth_succ y 8 (by omega)
  have h8 : daysBeforeMonth y 8 = daysBeforeMonth y 7 + daysInMonth y 7 :=
    daysBeforeMonth_succ y 7 (by omega)
  have h7 : daysBeforeMonth y 7 = daysBeforeMonth y 6 + daysInMonth y 6 :=
    daysBeforeMonth_succ y 6 (by omega)
  have h6 : daysBeforeMonth y 6 = daysBeforeMonth y 5 + daysInMonth y 5 :=
    daysBeforeMonth_succ y 5 (by omega)
  have h5 : daysBeforeMonth y 5 = daysBeforeMonth y 4 + daysInMonth y 4 :=
    daysBeforeMonth_succ y 4 (by omega)
  have h4 : daysBeforeMonth y 4 = daysBeforeMonth y 3 + daysInMonth y 3 :=
    daysBeforeMonth_succ y 3 (by omega)
  have h3 : daysBeforeMonth y 3 = daysBeforeMonth y 2 + daysInMonth y 2 :=
    daysBeforeMonth_succ y 2 (by omega)
  have h2 : daysBeforeMonth y 2 = daysBeforeMonth y 1 + daysInMonth y 1 :=
    daysBeforeMonth_succ y 1 (by omega)
  have h1 : daysBeforeMonth y 1 = 0 := rfl
  cases hl : isLeap y <;>
    simp only [daysInMonth, yearLen, hl, if_true, if_false] at * <;>
    norm_num at * <;>
    omega

set_option maxHeartbeats 1000000 in
theorem daysBeforeYear_succ (y : Nat) (h : 1 ≤ y) :
    daysBeforeYear (y + 1) = daysBeforeYear y + yearLen y := by
  cases hl : isLeap y
  · unfold isLeap at hl
    have hp : ¬ ((y % 4 = 0 ∧ ¬ y % 100 = 0) ∨ y % 400 = 0) := of_decide_eq_false hl
    have hy : yearLen y = 365 := by unfold yearLen isLeap; rw [hl]; rfl
    rw [hy]
    unfold daysBeforeYear
    omega
  · unfold isLeap at hl
    have hp : (y % 4 = 0 ∧ ¬ y % 100 = 0) ∨ y % 400 = 0 := of_decide_eq_true hl
    have hy : yearLen y = 366 := by unfold yearLen isLeap; rw [hl]; rfl
    rw [hy]
    unfold daysBeforeYear
    omega

/-! ## Month-scan ordering lemmas -/

theorem monthAt_succ (refY refM off : Nat) (h : 1 ≤ refY) :
    monthStartOrd (monthAt refY refM (off + 1)) =
      monthStartOrd (monthAt refY refM off) + dimAt refY refM off := by
  unfold monthStartOrd dimAt monthAt
  dsimp only
  have hmi1 : refM - 1 + (off + 1) = (refM - 1 + off) + 1 := by omega
  rw [hmi1]
  set mi := refM - 1 + off with hmi
  by_cases hr : mi % 12 = 11
  · have hq1 : (mi + 1) / 12 = mi / 12 + 1 := by omega
    have hq2 : (mi + 1) % 12 = 0 := by omega
    rw [hq1, hq2]
    have h12 : mi % 12 + 1 = 12 := by omega
    rw [h12]
    have hY : 1 ≤ refY + mi / 12 := by omega
    have hsucc := daysBeforeYear_succ (refY + mi / 12) hY
    have htot := yearTotal (refY + mi / 12)
    have hone : daysBeforeMonth (refY + (mi / 12 + 1)) (0 + 1) = 0 := rfl
    have hadd : refY + (mi / 12 + 1) = (refY + mi / 12) + 1 := by omega
    rw [hadd] at hone ⊢
    rw [hone, hsucc]
    omega
  · have hq1 : (mi + 1) / 12 = mi / 12 := by omega
    have hq2 : (mi + 1) % 12 = mi % 12 + 1 := by omega
    rw [hq1, hq2]
    have hsucc := daysBeforeMonth_succ (refY + mi / 12) (mi % 12 + 1) (by omega)
    omega

theorem monthStartOrd_add_le (refY refM : Nat) (h : 1 ≤ refY) (k k' : Nat)
    (hk : k < k') :
    monthStartOrd (monthAt refY refM k) + dimAt refY refM k ≤
      monthStartOrd (monthAt refY refM k') := by
  induction k' with
  | zero => omega
  | succ n ih =>
    rcases Nat.lt_succ_iff_lt_or_eq.mp hk with h1 | h1
    · have hstep := monthAt_succ refY refM n h
      have hle := ih h1
      omega
    · subst h1
      rw [monthAt_succ refY refM k h]

theorem nthWeekday_bounds (y m w occ d : Nat) :
    nthWeekday y m w occ = some d → 1 ≤ d ∧ d ≤ daysInMonth y m := by
  simp only [nthWeekday]
  split
  · intro h
    injection h with h
    omega
  · intro h
    cases h

theorem nthWeekday_day_mono (y m w o1 o2 d1 d2 : Nat) (h : o1 ≤ o2) :
    nthWeekday y m w o1 = some d1 → nthWeekday y m w o2 = some d2 → d1 ≤ d2 := by
  simp only [nthWeekday]
  split
  · split
    · intro h1 h2
      injection h1 with h1
      injection h2 with h2
      omega
    · intro _ h2
      cases h2
  · intro h1
    cases h1

theorem toMin_mkDT (y m d h : Nat) :
    (mkDT y m d h).toMin = (daysBeforeYear y + daysBeforeMonth y m + d) * 1440 + h * 60 := by
  simp [mkDT, DateTime.toMin, ordinalOf]

theorem candidateWindow_start (y m w occ sh eh : Nat) (s e : DateTime) :
    candidateWindow y m w occ sh eh = some (s, e) →
    ∃ d, nthWeekday y m w occ = some d ∧ s = mkDT y m d sh ∧
      1 ≤ d ∧ d ≤ daysInMonth y m := by
  unfold candidateWindow
  cases hnw : nthWeekday y m w occ with
  | none => intro h; cases h
  | some day =>
    intro h
    have hb := nthWeekday_bounds y m w occ day hnw
    refine ⟨day, rfl, ?_, hb.1, hb.2⟩
    simp only [Option.some.injEq, Prod.mk.injEq] at h
    exact h.1.symm

/-- Candidate starts in a strictly later scanned month are strictly later. -/
theorem cand_start_lt (refY refM : Nat) (h : 1 ≤ refY) (k k' : Nat) (hk : k < k')
    (w occ occ' sh eh : Nat) (s e s' e' : DateTime) :
    candidateWindow (monthAt refY refM k).1 (monthAt refY refM k).2 w occ sh eh
      = some (s, e) →
    candidateWindow (monthAt refY refM k').1 (monthAt refY refM k').2 w occ' sh eh
      = some (s', e') →
    s.toMin < s'.toMin := by
  intro h1 h2
  obtain ⟨d, hd, hs, hd1, hd2⟩ := candidateWindow_start _ _ _ _ _ _ _ _ h1
  obtain ⟨d', hd', hs', hd1', hd2'⟩ := candidateWindow_start _ _ _ _ _ _ _ _ h2
  subst hs hs'
  rw [toMin_mkDT, toMin_mkDT]
  have hmono := monthStartOrd_add_le refY refM h k k' hk
  unfold monthStartOrd at hmono
  unfold dimAt at hmono
  have : daysBeforeYear (monthAt refY refM k).1 +
      daysBeforeMonth (monthAt refY refM k).1 (monthAt refY refM k).2 + d <
      daysBeforeYear (monthAt refY refM k').1 +
      daysBeforeMonth (monthAt refY refM k').1 (monthAt refY refM k').2 + d' := by
    omega
  omega

/-- Within one scanned month, a later (or equal) occurrence index gives a
later (or equal) start. -/
theorem cand_start_le (y m w occ occ' sh eh : Nat) (hocc : occ ≤ occ')
    (s e s' e' : DateTime) :
    candidateWindow y m w occ sh eh = some (s, e) →
    candidateWindow y m w occ' sh eh = some (s', e') →
    s.toMin ≤ s'.toMin := by
  intro h1 h2
  obtain ⟨d, hd, hs, _, _⟩ := candidateWindow_start _ _ _ _ _ _ _ _ h1
  obtain ⟨d', hd', hs', _, _⟩ := candidateWindow_start _ _ _ _ _ _ _ _ h2
  subst hs hs'
  rw [toMin_mkDT, toMin_mkDT]
  have := nthWeekday_day_mono y m w occ occ' d d' hocc hd hd'
  omega

/-! ## Acceptance and search decomposition -/

theorem windowAccepted_iff (ref s e : DateTime) :
    windowAccepted ref s e = true ↔ ref.toMin < e.toMin := by
  by_cases h : e.toMin ≤ ref.toMin
  · simp [windowAccepted, h]
  · simp [windowAccepted, h]
    omega

theorem windowAccepted_false (ref s e : DateTime)
    (h : windowAccepted ref s e = false) : e.toMin ≤ ref.toMin := by
  rcases Nat.lt_or_ge ref.toMin e.toMin with hlt | hge
  · rw [(windowAccepted_iff ref s e).mpr hlt] at h
    cases h
  · exact hge

theorem searchOccs_none_iff (ref : DateTime) (y m w sh eh : Nat) (occs : List Nat) :
    searchOccs ref y m w sh eh occs = none ↔
      ∀ occ ∈ occs, ∀ s e, candidateWindow y m w occ sh eh = some (s, e) →
        windowAccepted ref s e = false := by
  induction occs with
  | nil => simp [searchOccs]
  | cons occ rest ih =>
    simp only [searchOccs]
    cases hc : candidateWindow y m w occ sh eh with
    | none =>
      rw [ih]
      constructor
      · rintro hall o ho s e hcw
        rcases List.mem_cons.mp ho with rfl | ho2
        · rw [hc] at hcw; cases hcw
        · exact hall o ho2 s e hcw
      · intro hall o ho s e hcw
        exact hall o (List.mem_cons_of_mem _ ho) s e hcw
    | some se =>
      obtain ⟨s1, e1⟩ := se
      dsimp only
      by_cases ha : windowAccepted ref s1 e1 = true
      · rw [if_pos ha]
        constructor
        · intro h; cases h
        · intro hall
          have := hall occ (List.mem_cons_self _ _) s1 e1 hc
          rw [ha] at this
          cases this
      · rw [if_neg ha]
        have haf : windowAccepted ref s1 e1 = false := by
          revert ha; cases windowAccepted ref s1 e1 <;> simp
        rw [ih]
        constructor
        · rintro hall o ho s e hcw
          rcases List.mem_cons.mp ho with rfl | ho2
          · rw [hc] at hcw
            simp only [Option.some.injEq, Prod.mk.injEq] at hcw
            obtain ⟨rfl, rfl⟩ := hcw
            exact haf
          · exact hall o ho2 s e hcw
        · intro hall o ho s e hcw
          exact hall o (List.mem_cons_of_mem _ ho) s e hcw

theorem searchOccs_some (ref : DateTime) (y m w sh eh : Nat) (occs : List Nat)
    (s e : DateTime) :
    searchOccs ref y m w sh eh occs = some (s, e) →
    windowAccepted ref s e = true ∧
    ∃ pre occ post, occs = pre ++ occ :: post ∧
      candidateWindow y m w occ sh eh = some (s, e) ∧
      ∀ o ∈ pre, ∀ s2 e2, candidateWindow y m w o sh eh = some (s2, e2) →
        windowAccepted ref s2 e2 = false := by
  induction occs with
  | nil => intro h; cases h
  | cons occ rest ih =>
    simp only [searchOccs]
    cases hc : candidateWindow y m w occ sh eh with
    | none =>
      intro h
      obtain ⟨hacc, pre, o, post, heq, hcw, hrej⟩ := ih h
      refine ⟨hacc, occ :: pre, o, post, by rw [heq]; rfl, hcw, ?_⟩
      rintro o2 ho2 s2 e2 hcw2
      rcases List.mem_cons.mp ho2 with rfl | ho3
      · rw [hc] at hcw2; cases hcw2
      · exact hrej o2 ho3 s2 e2 hcw2
    | some se =>
      obtain ⟨s1, e1⟩ := se
      dsimp only
      by_cases ha : windowAccepted ref s1 e1 = true
      · rw [if_pos ha]
        intro h
        simp only [Option.some.injEq, Prod.mk.injEq] at h
        obtain ⟨rfl, rfl⟩ := h
        exact ⟨ha, [], occ, rest, rfl, hc, by rintro o2 ⟨⟩⟩
      · rw [if_neg ha]
        have haf : windowAccepted ref s1 e1 = false := by
          revert ha; cases windowAccepted ref s1 e1 <;> simp
        intro h
        obtain ⟨hacc, pre, o, post, heq, hcw, hrej⟩ := ih h
        refine ⟨hacc, occ :: pre, o, post, by rw [heq]; rfl, hcw, ?_⟩
        rintro o2 ho2 s2 e2 hcw2
        rcases List.mem_cons.mp ho2 with rfl | ho3
        · rw [hc] at hcw2
          simp only [Option.some.injEq, Prod.mk.injEq] at hcw2
          obtain ⟨rfl, rfl⟩ := hcw2
          exact haf
        · exact hrej o2 ho3 s2 e2 hcw2

theorem searchMonths_none_iff (ref : DateTime) (w sh eh : Nat) (occs : List Nat)
    (offs : List Nat) :
    searchMonths ref w sh eh occs offs = none ↔
      ∀ off ∈ offs,
        searchOccs ref (monthAt ref.year ref.month off).1
          (monthAt ref.year ref.month off).2 w sh eh occs = none := by
  induction offs with
  | nil => simp [searchMonths]
  | cons off rest ih =>
    simp only [searchMonths]
    cases hso : searchOccs ref (monthAt ref.year ref.month off).1
        (monthAt ref.year ref.month off).2 w sh eh occs with
    | none =>
      dsimp only
      rw [ih]
      constructor
      · rintro hall o ho
        rcases List.mem_cons.mp ho with rfl | ho2
        · exact hso
        · exact hall o ho2
      · intro hall o ho
        exact hall o (List.mem_cons_of_mem _ ho)
    | some se =>
      dsimp only
      constructor
      · intro h; cases h
      · intro hall
        have := hall off (List.mem_cons_self _ _)
        rw [hso] at this
        cases this

theorem searchMonths_some (ref : DateTime) (w sh eh : Nat) (occs : List Nat)
    (offs : List Nat) (s e : DateTime) :
    searchMonths ref w sh eh occs offs = some (s, e) →
    ∃ pre off post, offs = pre ++ off :: post ∧
      searchOccs ref (monthAt ref.year ref.month off).1
        (monthAt ref.year ref.month off).2 w sh eh occs = some (s, e) ∧
      ∀ o ∈ pre,
        searchOccs ref (monthAt ref.year ref.month o).1
          (monthAt ref.year ref.month o).2 w sh eh occs = none := by
  induction offs with
  | nil => intro h; cases h
  | cons off rest ih =>
    simp only [searchMonths]
    cases hso : searchOccs ref (monthAt ref.year ref.month off).1
        (monthAt ref.year ref.month off).2 w sh eh occs with
    | none =>
      dsimp only
      intro h
      obtain ⟨pre, o, post, heq, hsome, hnone⟩ := ih h
      refine ⟨off :: pre, o, post, by rw [heq]; rfl, hsome, ?_⟩
      rintro o2 ho2
      rcases List.mem_cons.mp ho2 with rfl | ho3
      · exact hso
      · exact hnone o2 ho3
    | some se =>
      dsimp only
      intro h
      obtain ⟨s1, e1⟩ := se
      simp only [Option.some.injEq] at h
      refine ⟨[], off, rest, rfl, ?_, by rintro o2 ⟨⟩⟩
      rw [hso, h]

/-! ## Properties of the active-weeks normalization and the resolver -/

theorem activeWeeks_sorted (r : RecurringRule) :
    (activeWeeksOfRule r).Sorted (· ≤ ·) := by
  unfold activeWeeksOfRule
  cases hw : r.pattern.weeks_of_month with
  | none => decide
  | some l =>
    cases l with
    | nil => decide
    | cons w ws =>
      show ((w :: ws).insertionSort (· ≤ ·)).Sorted (· ≤ ·)
      exact List.sorted_insertionSort _ _

theorem activeWeeks_ne_nil (r : RecurringRule) : activeWeeksOfRule r ≠ [] := by
  unfold activeWeeksOfRule
  cases hw : r.pattern.weeks_of_month with
  | none => simp
  | some l =>
    cases l with
    | nil => simp
    | cons w ws =>
      show (w :: ws).insertionSort (· ≤ ·) ≠ []
      intro h
      have hp := List.perm_insertionSort (· ≤ ·) (w :: ws)
      rw [h] at hp
      have hl := hp.length_eq
      simp at hl

theorem nextSweepWindowFromRule_ok_iff (r : RecurringRule) (ref : DateTime)
    (w : Nat) (rest : List Nat) (hw : r.pattern.weekdays = w :: rest)
    (s e : DateTime) :
    nextSweepWindowFromRule r ref = .ok (s, e) ↔
      searchMonths ref w r.time_window.start r.time_window.endH
        (activeWeeksOfRule r) scanOffsets = some (s, e) := by
  unfold nextSweepWindowFromRule
  rw [hw]
  dsimp only
  rw [if_neg (activeWeeks_ne_nil r)]
  cases hsm : searchMonths ref w r.time_window.start r.time_window.endH
      (activeWeeksOfRule r) scanOffsets with
  | none =>
    dsimp only
    constructor
    · intro h; cases h
    · intro h; cases h
  | some se =>
    obtain ⟨s1, e1⟩ := se
    dsimp only
    constructor
    · intro h
      injection h with h
      rw [h]
    · intro h
      injection h with h
      rw [h]

theorem nextSweepWindowFromRule_err_iff (r : RecurringRule) (ref : DateTime)
    (w : Nat) (rest : List Nat) (hw : r.pattern.weekdays = w :: rest) :
    nextSweepWindowFromRule r ref = .error .noWindow ↔
      searchMonths ref w r.time_window.start r.time_window.endH
        (activeWeeksOfRule r) scanOffsets = none := by
  unfold nextSweepWindowFromRule
  rw [hw]
  dsimp only
  rw [if_neg (activeWeeks_ne_nil r)]
  cases hsm : searchMonths ref w r.time_window.start r.time_window.endH
      (activeWeeksOfRule r) scanOffsets with
  | none =>
    dsimp only
    exact ⟨fun _ => rfl, fun _ => rfl⟩
  | some se =>
    obtain ⟨s1, e1⟩ := se
    dsimp only
    constructor
    · intro h; cases h
    · intro h; cases h

theorem nextSweepWindowFromRule_ok_accepted (r : RecurringRule) (ref : DateTime)
    (S E : DateTime) (hok : nextSweepWindowFromRule r ref = .ok (S, E)) :
    ref.toMin < E.toMin := by
  cases hwds : r.pattern.weekdays with
  | nil =>
    unfold nextSweepWindowFromRule at hok
    rw [hwds] at hok
    cases hok
  | cons w rest =>
    rw [nextSweepWindowFromRule_ok_iff r ref w rest hwds S E] at hok
    obtain ⟨mpre, off0, mpost, hoffs, hsome, hmnone⟩ :=
      searchMonths_some _ _ _ _ _ _ _ _ hok
    obtain ⟨hacc, _, _, _, _, _, _⟩ := searchOccs_some _ _ _ _ _ _ _ _ _ hsome
    exact (windowAccepted_iff ref S E).mp hacc

/-- C1 (amended): for a rule with a non-empty weekday set and a reference
with year at least 1, the window returned by next_sweep_window_from_rule has
end after the reference, is one of the candidate windows of the rule's first
weekday generated from a scanned month (reference month plus at most 12),
and its start is minimal among all candidate windows of that weekday, in any
active week of any calendar month at or after the reference's month, whose
end is after the reference.  (The claim as frozen is refuted by
c1_earlier_occurrence_missed_cex: a cross-midnight occurrence that starts in
the month before the reference is not considered, and occurrences of
weekdays other than the first in the pattern are never considered.) -/
theorem c1_first_weekday_start_minimal (r : RecurringRule) (ref : DateTime)
    (w : Nat) (rest : List Nat) (hw : r.pattern.weekdays = w :: rest)
    (hy : 1 ≤ ref.year) (S E : DateTime)
    (hok : nextSweepWindowFromRule r ref = .ok (S, E)) :
    ref.toMin < E.toMin ∧
    (∃ k, k < 13 ∧ ∃ occ ∈ activeWeeksOfRule r,
      candidateWindow (monthAt ref.year ref.month k).1 (monthAt ref.year ref.month k).2
        w occ r.time_window.start r.time_window.endH = some (S, E)) ∧
    (∀ k occ, occ ∈ activeWeeksOfRule r →
      ∀ s e, candidateWindow (monthAt ref.year ref.month k).1 (monthAt ref.year ref.month k).2
          w occ r.time_window.start r.time_window.endH = some (s, e) →
      ref.toMin < e.toMin → S.toMin ≤ s.toMin) := by
  rw [nextSweepWindowFromRule_ok_iff r ref w rest hw S E] at hok
  obtain ⟨mpre, off0, mpost, hoffs, hsome, hmnone⟩ :=
    searchMonths_some _ _ _ _ _ _ _ _ hok
  obtain ⟨hacc, opre, occ0, opost, hoccs, hcand, horej⟩ :=
    searchOccs_some _ _ _ _ _ _ _ _ _ hsome
  have hEref : ref.toMin < E.toMin := (windowAccepted_iff ref S E).mp hacc
  have hoff0_mem : off0 ∈ List.range 13 := by
    have : off0 ∈ scanOffsets := by
      rw [hoffs]; exact List.mem_append_right _ (List.mem_cons_self _ _)
    exact this
  have hoff0_lt : off0 < 13 := List.mem_range.mp hoff0_mem
  have hocc0_mem : occ0 ∈ activeWeeksOfRule r := by
    rw [hoccs]; exact List.mem_append_right _ (List.mem_cons_self _ _)
  refine ⟨hEref, ⟨off0, hoff0_lt, occ0, hocc0_mem, hcand⟩, ?_⟩
  intro k occ hocc s e hcw href
  rcases Nat.lt_trichotomy k off0 with hklt | hkeq | hkgt
  · have hkmem : k ∈ mpre := by
      have hkS : k ∈ scanOffsets := by
        show k ∈ List.range 13
        exact List.mem_range.mpr (by omega)
      rw [hoffs] at hkS
      rcases List.mem_append.mp hkS with h1 | h1
      · exact h1
      · rcases List.mem_cons.mp h1 with rfl | h2
        · omega
        · have hpw : (mpre ++ off0 :: mpost).Pairwise (· < ·) := by
            rw [← hoffs]
            exact List.pairwise_lt_range 13
          have hpw2 := (List.pairwise_append.mp hpw).2.1
          have := (List.pairwise_cons.mp hpw2).1 k h2
          omega
    have hnone := hmnone k hkmem
    have hrej := (searchOccs_none_iff _ _ _ _ _ _ _).mp hnone occ hocc s e hcw
    have := windowAccepted_false _ _ _ hrej
    omega
  · subst hkeq
    have hmem2 : occ ∈ opre ∨ occ = occ0 ∨ occ ∈ opost := by
      rw [hoccs] at hocc
      rcases List.mem_append.mp hocc with h1 | h1
      · exact Or.inl h1
      · rcases List.mem_cons.mp h1 with h2 | h2
        · exact Or.inr (Or.inl h2)
        · exact Or.inr (Or.inr h2)
    rcases hmem2 with h1 | h1 | h1
    · have hrej := horej occ h1 s e hcw
      have := windowAccepted_false _ _ _ hrej
      omega
    · subst h1
      rw [hcand] at hcw
      simp only [Option.some.injEq, Prod.mk.injEq] at hcw
      obtain ⟨h1', -⟩ := hcw
      rw [h1']
    · have hsort := activeWeeks_sorted r
      rw [hoccs] at hsort
      have hpw2 := (List.pairwise_append.mp hsort).2.1
      have hle : occ0 ≤ occ := (List.pairwise_cons.mp hpw2).1 occ h1
      exact cand_start_le _ _ _ _ _ _ _ hle _ _ _ _ hcand hcw
  · have := cand_start_lt ref.year ref.month hy off0 k hkgt
      w occ0 occ r.time_window.start r.time_window.endH S E s e hcand hcw
    omega

/-- The shape of every candidate window: start at startH on the occurrence
day, end at endH on the same day, pushed one day forward exactly when
endH ≤ startH. -/
theorem candidateWindow_shape (y m w occ sh eh : Nat) (s e : DateTime) :
    candidateWindow y m w occ sh eh = some (s, e) →
    s.hour = sh ∧ s.minute = 0 ∧
      e = (if eh ≤ sh then addOneDay (mkDT s.year s.month s.day eh)
           else mkDT s.year s.month s.day eh) := by
  unfold candidateWindow
  cases hnw : nthWeekday y m w occ with
  | none => intro h; cases h
  | some day =>
    dsimp only
    intro h
    simp only [Option.some.injEq, Prod.mk.injEq] at h
    obtain ⟨hs, he⟩ := h
    subst hs
    refine ⟨rfl, rfl, ?_⟩
    rw [← he]
    by_cases hc : eh ≤ sh
    · have hcm : (mkDT y m day eh).toMin ≤ (mkDT y m day sh).toMin := by
        rw [toMin_mkDT, toMin_mkDT]; omega
      rw [if_pos hcm, if_pos hc]
      rfl
    · have hcm : ¬ (mkDT y m day eh).toMin ≤ (mkDT y m day sh).toMin := by
        rw [toMin_mkDT, toMin_mkDT]; omega
      rw [if_neg hcm, if_neg hc]
      rfl

/-! ## Claim theorems -/

/-- C1 counterexample: for the Thursday / 5th-week / 23:00-02:00 rule and
reference 2024-03-01 00:30 (all inside the claim's hypotheses: non-empty
weekday set, weeks within 1..5, valid hours), next_sweep_window_from_rule
returns the window starting 2024-05-30 23:00, yet the 5th Thursday of
February 2024 generates the pattern window 2024-02-29 23:00 to
2024-03-01 02:00 whose start is strictly earlier and whose end is still
after the reference.  The claimed minimality fails because the scan never
looks at the month before the reference. -/
theorem c1_earlier_occurrence_missed_cex :
    nextSweepWindowFromRule ruleThu5Night ⟨2024, 3, 1, 0, 30⟩ =
      .ok (mkDT 2024 5 30 23, ⟨2024, 5, 31, 2, 0⟩) ∧
    3 ∈ ruleThu5Night.pattern.weekdays ∧
    5 ∈ activeWeeksOfRule ruleThu5Night ∧
    weekdayOf 2024 2 29 = 3 ∧
    candidateWindow 2024 2 3 5 ruleThu5Night.time_window.start
      ruleThu5Night.time_window.endH = some (mkDT 2024 2 29 23, ⟨2024, 3, 1, 2, 0⟩) ∧
    (⟨2024, 3, 1, 0, 30⟩ : DateTime).toMin < (⟨2024, 3, 1, 2, 0⟩ : DateTime).toMin ∧
    (mkDT 2024 2 29 23).toMin < (mkDT 2024 5 30 23).toMin := by
  decide

/-- C1 witness for the amended theorem. -/
theorem c1_first_weekday_start_minimal_witness :
    (⟨2024, 3, 1, 0, 30⟩ : DateTime).toMin < (⟨2024, 5, 31, 2, 0⟩ : DateTime).toMin :=
  (c1_first_weekday_start_minimal ruleThu5Night ⟨2024, 3, 1, 0, 30⟩ 3 []
    (by decide) (by decide) (mkDT 2024 5 30 23) ⟨2024, 5, 31, 2, 0⟩ (by decide)).1

/-- C7: a candidate window is accepted exactly when its end is strictly
after the reference instant; consequently every returned window has end
after the reference, and a reference equal to the exact end instant of the
2nd-Friday window makes the resolver skip it and return the 4th-Friday
window (closed-open boundary at the end). -/
theorem c7_accepted_iff_end_after_reference :
    (∀ ref s e : DateTime, windowAccepted ref s e = true ↔ ref.toMin < e.toMin) ∧
    (∀ (r : RecurringRule) (ref S E : DateTime),
      nextSweepWindowFromRule r ref = .ok (S, E) → ref.toMin < E.toMin) ∧
    nextSweepWindowFromRule ruleFri24 (mkDT 2024 3 8 14) =
      .ok (mkDT 2024 3 22 12, mkDT 2024 3 22 14) :=
  ⟨windowAccepted_iff, nextSweepWindowFromRule_ok_accepted, by decide⟩

/-- C7 witness. -/
theorem c7_accepted_iff_end_after_reference_witness :
    (mkDT 2024 3 8 14).toMin < (mkDT 2024 3 22 14).toMin :=
  c7_accepted_iff_end_after_reference.2.1 ruleFri24 (mkDT 2024 3 8 14)
    (mkDT 2024 3 22 12) (mkDT 2024 3 22 14) (by decide)

/-- C8: the returned window starts at the rule's start hour on the
occurrence day; when the end hour is numerically at most the start hour the
end is the same-date end-hour datetime plus exactly one day (end falls at
end_hour on the calendar day after start), otherwise start and end share the
calendar day. -/
theorem c8_cross_midnight_window (r : RecurringRule) (ref : DateTime)
    (S E : DateTime) (hok : nextSweepWindowFromRule r ref = .ok (S, E)) :
    S.hour = r.time_window.start ∧ S.minute = 0 ∧
    (if r.time_window.endH ≤ r.time_window.start
     then E = addOneDay (mkDT S.year S.month S.day r.time_window.endH)
     else E = mkDT S.year S.month S.day r.time_window.endH) := by
  cases hwds : r.pattern.weekdays with
  | nil =>
    unfold nextSweepWindowFromRule at hok
    rw [hwds] at hok
    cases hok
  | cons w rest =>
    rw [nextSweepWindowFromRule_ok_iff r ref w rest hwds S E] at hok
    obtain ⟨mpre, off0, mpost, hoffs, hsome, hmnone⟩ :=
      searchMonths_some _ _ _ _ _ _ _ _ hok
    obtain ⟨hacc, opre, occ0, opost, hoccs, hcand, horej⟩ :=
      searchOccs_some _ _ _ _ _ _ _ _ _ hsome
    obtain ⟨h1, h2, h3⟩ := candidateWindow_shape _ _ _ _ _ _ _ _ hcand
    refine ⟨h1, h2, ?_⟩
    by_cases hc : r.time_window.endH ≤ r.time_window.start
    · rw [if_pos hc]
      rw [if_pos hc] at h3
      exact h3
    · rw [if_neg hc]
      rw [if_neg hc] at h3
      exact h3

/-- C8 witness: the overnight Monday rule produces the window
2024-04-01 23:00 to 2024-04-02 01:00, whose end is the same-date 01:00
pushed one day forward. -/
theorem c8_cross_midnight_window_witness :
    (mkDT 2024 4 1 23).hour = ruleMon1Night.time_window.start ∧
    (mkDT 2024 4 1 23).minute = 0 ∧
    (if ruleMon1Night.time_window.endH ≤ ruleMon1Night.time_window.start
     then (⟨2024, 4, 2, 1, 0⟩ : DateTime) =
       addOneDay (mkDT (mkDT 2024 4 1 23).year (mkDT 2024 4 1 23).month
         (mkDT 2024 4 1 23).day ruleMon1Night.time_window.endH)
     else (⟨2024, 4, 2, 1, 0⟩ : DateTime) =
       mkDT (mkDT 2024 4 1 23).year (mkDT 2024 4 1 23).month
         (mkDT 2024 4 1 23).day ruleMon1Night.time_window.endH) :=
  c8_cross_midnight_window ruleMon1Night ⟨2024, 4, 2, 0, 30⟩
    (mkDT 2024 4 1 23) ⟨2024, 4, 2, 1, 0⟩ (by decide)

/-- C4 (amended): the scan examines 13 calendar months — the reference
month and the 12 months after it — and the resolver fails with the
no-window error exactly when every candidate window generated within those
13 months ends at or before the reference. -/
theorem c4_thirteen_month_horizon (r : RecurringRule) (ref : DateTime)
    (w : Nat) (rest : List Nat) (hw : r.pattern.weekdays = w :: rest) :
    (monthsExamined ref).length = 13 ∧
    (nextSweepWindowFromRule r ref = .error .noWindow ↔
      ∀ k, k < 13 → ∀ occ ∈ activeWeeksOfRule r, ∀ s e,
        candidateWindow (monthAt ref.year ref.month k).1
          (monthAt ref.year ref.month k).2 w occ
          r.time_window.start r.time_window.endH = some (s, e) →
        e.toMin ≤ ref.toMin) := by
  refine ⟨by simp [monthsExamined, scanOffsets], ?_⟩
  rw [nextSweepWindowFromRule_err_iff r ref w rest hw]
  rw [searchMonths_none_iff]
  constructor
  · intro hall k hk occ hocc s e hcw
    have hmem : k ∈ scanOffsets := by
      show k ∈ List.range 13
      exact List.mem_range.mpr hk
    have hn := hall k hmem
    have := (searchOccs_none_iff _ _ _ _ _ _ _).mp hn occ hocc s e hcw
    exact windowAccepted_false _ _ _ this
  · intro hall off hoff
    rw [searchOccs_none_iff]
    intro occ hocc s e hcw
    have hk : off < 13 := List.mem_range.mp hoff
    have hle := hall off hk occ hocc s e hcw
    have hna : ¬ windowAccepted ref s e = true := by
      rw [windowAccepted_iff]
      omega
    revert hna
    cases windowAccepted ref s e <;> simp

/-- C4 counterexample: 13 calendar months are examined, not at most 12;
for a mid-January 2024 reference the scan includes January 2025, twelve
months after the reference month, and a rule whose only week index is 6
exhausts the whole horizon and raises the no-window error. -/
theorem c4_thirteen_not_twelve_cex :
    (monthsExamined (mkDT 2024 1 15 0)).length = 13 ∧
    ¬ (monthsExamined (mkDT 2024 1 15 0)).length ≤ 12 ∧
    monthAt 2024 1 12 = (2025, 1) ∧
    (2025, 1) ∈ monthsExamined (mkDT 2024 1 15 0) ∧
    nextSweepWindowFromRule ruleWeek6 (mkDT 2024 1 15 0) = .error .noWindow := by
  decide

/-- C4 witness for the amended theorem. -/
theorem c4_thirteen_month_horizon_witness :
    (monthsExamined (mkDT 2024 1 15 0)).length = 13 :=
  (c4_thirteen_month_horizon ruleWeek6 (mkDT 2024 1 15 0) 0 [] (by decide)).1

/-- C3 (amended): a raw row with no active weeks fails at row-level
occurrence resolution (next_sweep_window) with the no-active-weeks input
error; the merger does not reject such a row but converts its all-false
week flags to weeks_of_month = none; and rule-level resolution
(next_sweep_window_from_rule) treats none and the empty set alike as "all
weeks", so it never raises the no-active-weeks error — the merged rule
resolves to a window rather than failing. -/
theorem c3_empty_weeks_row_vs_rule :
    (∀ (s : SweepingSchedule) (ref : DateTime) (w : Nat),
      weekdayLookup (lowerString (trimString s.week_day)) = some w →
      s.week1 = false → s.week2 = false → s.week3 = false → s.week4 = false →
      s.week5 = false →
      nextSweepWindow s ref = .error .noActiveWeeks) ∧
    (∀ (s : SweepingSchedule) (w : Nat),
      weekdayLookup (lowerString s.week_day) = some w →
      s.from_hour < 24 → s.to_hour < 24 →
      s.week1 = false → s.week2 = false → s.week3 = false → s.week4 = false →
      s.week5 = false →
      sweepingSchedulesToBlocks [s] =
        .ok [⟨blockKeyOf s,
              [⟨⟨[w], none⟩, ⟨s.from_hour, s.to_hour⟩, s.holidays⟩], s.line⟩]) ∧
    (∀ (r : RecurringRule) (ref : DateTime) (w : Nat) (rest : List Nat),
      r.pattern.weekdays = w :: rest →
      nextSweepWindowFromRule r ref ≠ .error .noActiveWeeks) ∧
    (∀ (wd : List Nat) (tw : TimeWindow) (sk : Bool) (ref : DateTime),
      nextSweepWindowFromRule ⟨⟨wd, some []⟩, tw, sk⟩ ref =
        nextSweepWindowFromRule ⟨⟨wd, none⟩, tw, sk⟩ ref) := by
  refine ⟨?_, ?_, ?_, ?_⟩
  · intro s ref w hlook h1 h2 h3 h4 h5
    have hnh : lowerString (trimString s.week_day) ≠ "holiday" := by
      intro hh
      rw [hh] at hlook
      have hnone : weekdayLookup "holiday" = none := by decide
      rw [hnone] at hlook
      cases hlook
    unfold nextSweepWindow
    rw [if_neg hnh, hlook]
    simp [activeWeeksOfRow, h1, h2, h3, h4, h5]
  · intro s w hlook hfh hth h1 h2 h3 h4 h5
    have htr : toRule s = .ok ⟨⟨[w], none⟩, ⟨s.from_hour, s.to_hour⟩, s.holidays⟩ := by
      unfold toRule
      rw [hlook]
      dsimp only
      rw [if_neg (by omega)]
      unfold weeksFromFlags activeWeeksOfRow
      rw [h1, h2, h3, h4, h5]
      rfl
    have hkeys : groupKeys [s] = [blockKeyOf s] := by
      unfold groupKeys insertKey
      simp
    have hfilter : List.filter (fun s2 => decide (blockKeyOf s2 = blockKeyOf s)) [s] = [s] := by
      simp
    unfold sweepingSchedulesToBlocks
    rw [hkeys]
    unfold mapGroups
    rw [hfilter]
    unfold processGroup badGeometry
    dsimp only
    unfold mapToRules mapToRules
    rw [htr]
    rfl
  · intro r ref w rest hw hcontra
    unfold nextSweepWindowFromRule at hcontra
    rw [hw] at hcontra
    dsimp only at hcontra
    rw [if_neg (activeWeeks_ne_nil r)] at hcontra
    cases hsm : searchMonths ref w r.time_window.start r.time_window.endH
        (activeWeeksOfRule r) scanOffsets with
    | none =>
      rw [hsm] at hcontra
      simp at hcontra
    | some se =>
      obtain ⟨s1, e1⟩ := se
      rw [hsm] at hcontra
      simp at hcontra
  · intro wd tw sk ref
    rfl

/-- C3 counterexample: a rule with an empty weeks-of-month set resolves to
a window (the empty set is normalized to all weeks), and the rule the
merger produces from an all-false row likewise resolves; only the raw-row
resolver fails.  This refutes "occurrence resolution fails with an
input-configuration error instead of returning a window" for rules, and
"only fails later when its next occurrence is resolved" for the merged
output of an all-false row. -/
theorem c3_empty_weeks_resolves_cex :
    sweepingSchedulesToBlocks [rowTueNoWeeks] =
      .ok [⟨blockKeyOf rowTue, [⟨⟨[1], none⟩, ⟨10, 12⟩, false⟩], [(1, 2)]⟩] ∧
    nextSweepWindowFromRule ⟨⟨[1], some []⟩, ⟨10, 12⟩, false⟩ (mkDT 2024 3 6 9) =
      .ok (mkDT 2024 3 12 10, mkDT 2024 3 12 12) ∧
    nextSweepWindowFromRule ⟨⟨[1], none⟩, ⟨10, 12⟩, false⟩ (mkDT 2024 3 6 9) =
      .ok (mkDT 2024 3 12 10, mkDT 2024 3 12 12) := by
  decide

/-- C3 witness for the amended theorem. -/
theorem c3_empty_weeks_row_vs_rule_witness :
    nextSweepWindow rowTueNoWeeks (mkDT 2024 3 6 9) = .error .noActiveWeeks :=
  c3_empty_weeks_row_vs_rule.1 rowTueNoWeeks (mkDT 2024 3 6 9) 1
    (by decide) (by decide) (by decide) (by decide) (by decide) (by decide)

/-- Characterization of the send flag of should_send: whenever the
function returns with a resolved window (start, end), the flag is true
exactly when the occurrence has not started and either the ideal notify
time has passed (late branch) or it falls inside the polling window, and in
both cases no prior notification at or after the ideal time exists. -/
theorem shouldSend_ok_flag (record : SubscriptionRecord)
    (schedule : SweepingSchedule) (now windowEnd : DateTime) (b : Bool)
    (s e : DateTime) (nt : Option Int)
    (hok : shouldSend record schedule now windowEnd = .ok (b, some s, some e, nt)) :
    b = true ↔
      (now.toMin < s.toMin ∧
       ((s.toMinI - (record.lead_minutes : Int) < now.toMinI ∧
         ∀ ln, record.last_notified_at = some ln →
           ln.toMinI < s.toMinI - (record.lead_minutes : Int)) ∨
        (¬ (s.toMinI - (record.lead_minutes : Int) < now.toMinI) ∧
         s.toMinI - (record.lead_minutes : Int) < windowEnd.toMinI ∧
         ∀ ln, record.last_notified_at = some ln →
           ln.toMinI < s.toMinI - (record.lead_minutes : Int)))) := by
  unfold shouldSend at hok
  cases hbss : sweepingSchedulesToBlocks [schedule] with
  | error err => rw [hbss] at hok; cases hok
  | ok bss =>
    rw [hbss] at hok
    cases bss with
    | nil =>
      dsimp only at hok
      simp at hok
    | cons bs bss2 =>
      dsimp only at hok
      cases hesw : earliestSweepWindow bs now with
      | error err => rw [hesw] at hok; cases hok
      | ok se0 =>
        obtain ⟨start, endd⟩ := se0
        rw [hesw] at hok
        dsimp only at hok
        by_cases hst : start.toMin ≤ now.toMin
        · rw [if_pos hst] at hok
          simp only [Except.ok.injEq, Prod.mk.injEq, Option.some.injEq] at hok
          obtain ⟨hb, hss, hee, hnt⟩ := hok
          subst hss
          subst hb
          constructor
          · intro h; cases h
          · intro hrhs
            exact absurd hrhs.1 (by omega)
        · rw [if_neg hst] at hok
          have hns : now.toMin < start.toMin := by omega
          by_cases hlt : start.toMinI - (record.lead_minutes : Int) < now.toMinI
          · rw [if_pos hlt] at hok
            cases hln : record.last_notified_at with
            | some ln =>
              rw [hln] at hok
              dsimp only at hok
              by_cases hdup : start.toMinI - (record.lead_minutes : Int) ≤ ln.toMinI
              · rw [if_pos hdup] at hok
                simp only [Except.ok.injEq, Prod.mk.injEq, Option.some.injEq] at hok
                obtain ⟨hb, hss, hee, hnt⟩ := hok
                subst hss
                subst hb
                constructor
                · intro h; cases h
                · rintro ⟨-, ⟨-, hall⟩ | ⟨hnl, -, -⟩⟩
                  · have := hall ln rfl
                    omega
                  · exact absurd hlt hnl
              · rw [if_neg hdup] at hok
                simp only [Except.ok.injEq, Prod.mk.injEq, Option.some.injEq] at hok
                obtain ⟨hb, hss, hee, hnt⟩ := hok
                subst hss
                subst hb
                constructor
                · intro _
                  refine ⟨hns, Or.inl ⟨hlt, ?_⟩⟩
                  intro ln2 hln2
                  injection hln2 with hln2
                  subst hln2
                  omega
                · intro _
                  rfl
            | none =>
              rw [hln] at hok
              dsimp only at hok
              simp only [Except.ok.injEq, Prod.mk.injEq, Option.some.injEq] at hok
              obtain ⟨hb, hss, hee, hnt⟩ := hok
              subst hss
              subst hb
              constructor
              · intro _
                refine ⟨hns, Or.inl ⟨hlt, ?_⟩⟩
                intro ln2 hln2
                cases hln2
              · intro _
                rfl
          · rw [if_neg hlt] at hok
            by_cases hwe : windowEnd.toMinI ≤ start.toMinI - (record.lead_minutes : Int)
            · rw [if_pos hwe] at hok
              simp only [Except.ok.injEq, Prod.mk.injEq, Option.some.injEq] at hok
              obtain ⟨hb, hss, hee, hnt⟩ := hok
              subst hss
              subst hb
              constructor
              · intro h; cases h
              · rintro ⟨-, ⟨hl, -⟩ | ⟨-, hwin, -⟩⟩
                · exact absurd hl hlt
                · omega
            · rw [if_neg hwe] at hok
              cases hln : record.last_notified_at with
              | some ln =>
                rw [hln] at hok
                dsimp only at hok
                by_cases hdup : start.toMinI - (record.lead_minutes : Int) ≤ ln.toMinI
                · rw [if_pos hdup] at hok
                  simp only [Except.ok.injEq, Prod.mk.injEq, Option.some.injEq] at hok
                  obtain ⟨hb, hss, hee, hnt⟩ := hok
                  subst hss
                  subst hb
                  constructor
                  · intro h; cases h
                  · rintro ⟨-, ⟨hl, -⟩ | ⟨-, -, hall⟩⟩
                    · exact absurd hl hlt
                    · have := hall ln rfl
                      omega
                · rw [if_neg hdup] at hok
                  simp only [Except.ok.injEq, Prod.mk.injEq, Option.some.injEq] at hok
                  obtain ⟨hb, hss, hee, hnt⟩ := hok
                  subst hss
                  subst hb
                  constructor
                  · intro _
                    refine ⟨hns, Or.inr ⟨hlt, by omega, ?_⟩⟩
                    intro ln2 hln2
                    injection hln2 with hln2
                    subst hln2
                    omega
                  · intro _
                    rfl
              | none =>
                rw [hln] at hok
                dsimp only at hok
                simp only [Except.ok.injEq, Prod.mk.injEq, Option.some.injEq] at hok
                obtain ⟨hb, hss, hee, hnt⟩ := hok
                subst hss
                subst hb
                constructor
                · intro _
                  refine ⟨hns, Or.inr ⟨hlt, by omega, ?_⟩⟩
                  intro ln2 hln2
                  cases hln2
                · intro _
                  rfl

/-- C2: when the occurrence has not yet started but the ideal notify time
(start minus lead_minutes) is already strictly before now, should_send
returns send = true regardless of the polling window end, unless
last_notified_at is set and at or after the ideal notify time, in which
case it returns send = false. -/
theorem c2_late_notification (record : SubscriptionRecord)
    (schedule : SweepingSchedule) (now windowEnd : DateTime) (b : Bool)
    (s e : DateTime) (nt : Option Int)
    (hok : shouldSend record schedule now windowEnd = .ok (b, some s, some e, nt))
    (hupcoming : now.toMin < s.toMin)
    (hlate : s.toMinI - (record.lead_minutes : Int) < now.toMinI) :
    b = true ↔ ∀ ln, record.last_notified_at = some ln →
      ln.toMinI < s.toMinI - (record.lead_minutes : Int) := by
  rw [shouldSend_ok_flag record schedule now windowEnd b s e nt hok]
  constructor
  · rintro ⟨-, h | h⟩
    · exact h.2
    · exact absurd hlate h.1
  · intro hall
    exact ⟨hupcoming, Or.inl ⟨hlate, hall⟩⟩

/-- C2 witness: at 13:05, with the ideal time 13:00 already passed and a
notification already recorded at 13:00, the decision is send = false. -/
theorem c2_late_notification_witness :
    (false = true ↔ ∀ ln, recNotified.last_notified_at = some ln →
      ln.toMinI < (mkDT 2024 3 8 14).toMinI - (recNotified.lead_minutes : Int)) :=
  c2_late_notification recNotified rowFri14 ⟨2024, 3, 8, 13, 5⟩ ⟨2024, 3, 8, 14, 5⟩
    false (mkDT 2024 3 8 14) (mkDT 2024 3 8 16)
    (some ((⟨2024, 3, 8, 13, 5⟩ : DateTime).toMinI))
    (by decide) (by decide) (by decide)

/-- C10: a record that was never notified (last_notified_at = None) is
never suppressed by de-duplication: send = true exactly when the occurrence
has not started and the ideal notify time either already passed or falls
strictly before the polling window end. -/
theorem c10_never_notified_not_suppressed (record : SubscriptionRecord)
    (schedule : SweepingSchedule) (now windowEnd : DateTime) (b : Bool)
    (s e : DateTime) (nt : Option Int)
    (hnone : record.last_notified_at = none)
    (hok : shouldSend record schedule now windowEnd = .ok (b, some s, some e, nt)) :
    b = true ↔ now.toMin < s.toMin ∧
      (s.toMinI - (record.lead_minutes : Int) < now.toMinI ∨
       s.toMinI - (record.lead_minutes : Int) < windowEnd.toMinI) := by
  rw [shouldSend_ok_flag record schedule now windowEnd b s e nt hok]
  constructor
  · rintro ⟨h1, h | h⟩
    · exact ⟨h1, Or.inl h.1⟩
    · exact ⟨h1, Or.inr h.2.1⟩
  · rintro ⟨h1, h2⟩
    refine ⟨h1, ?_⟩
    by_cases hlt : s.toMinI - (record.lead_minutes : Int) < now.toMinI
    · refine Or.inl ⟨hlt, ?_⟩
      intro ln h
      rw [hnone] at h
      cases h
    · refine Or.inr ⟨hlt, ?_, ?_⟩
      · rcases h2 with h2 | h2
        · exact absurd h2 hlt
        · exact h2
      · intro ln h
        rw [hnone] at h
        cases h

/-- C10 witness: never-notified subscriber, ideal time 13:00 inside the
polling window 12:30-13:30, decision send = true. -/
theorem c10_never_notified_not_suppressed_witness :
    (true = true ↔ (⟨2024, 3, 8, 12, 30⟩ : DateTime).toMin < (mkDT 2024 3 8 14).toMin ∧
      ((mkDT 2024 3 8 14).toMinI - (recNoLast.lead_minutes : Int) <
        (⟨2024, 3, 8, 12, 30⟩ : DateTime).toMinI ∨
       (mkDT 2024 3 8 14).toMinI - (recNoLast.lead_minutes : Int) <
        (⟨2024, 3, 8, 13, 30⟩ : DateTime).toMinI)) :=
  c10_never_notified_not_suppressed recNoLast rowFri14
    ⟨2024, 3, 8, 12, 30⟩ ⟨2024, 3, 8, 13, 30⟩ true
    (mkDT 2024 3 8 14) (mkDT 2024 3 8 16)
    (some ((mkDT 2024 3 8 13).toMinI)) rfl (by decide)

/-! ## Earliest-window-with-id fold invariant (for C6) -/

theorem eswbiStep_inv (ref : DateTime) (P : List SweepingSchedule)
    (acc : Option (DateTime × DateTime × Nat)) (row : SweepingSchedule)
    (hinv : EswbiInv ref P acc) :
    EswbiInv ref (P ++ [row]) (eswbiStep ref acc row) := by
  unfold eswbiStep
  cases hns : nextSweepWindow row ref with
  | error err =>
    cases acc with
    | none =>
      intro r hr st en
      rcases List.mem_append.mp hr with h | h
      · exact hinv r h st en
      · rcases List.mem_cons.mp h with rfl | h2
        · rw [hns]; intro hcon; cases hcon
        · cases h2
    | some t =>
      obtain ⟨s0, e0, i0⟩ := t
      obtain ⟨⟨r0, hr0, hi0, hw0⟩, hmin⟩ := hinv
      refine ⟨⟨r0, List.mem_append_left _ hr0, hi0, hw0⟩, ?_⟩
      intro r hr st en hok
      rcases List.mem_append.mp hr with h | h
      · exact hmin r h st en hok
      · rcases List.mem_cons.mp h with rfl | h2
        · rw [hns] at hok; cases hok
        · cases h2
  | ok stEn =>
    obtain ⟨st, en⟩ := stEn
    cases acc with
    | none =>
      dsimp only
      refine ⟨⟨row, List.mem_append_right _ (List.mem_cons_self _ _), rfl, hns⟩, ?_⟩
      intro r hr st2 en2 hok
      rcases List.mem_append.mp hr with h | h
      · exact absurd hok (hinv r h st2 en2)
      · rcases List.mem_cons.mp h with rfl | h2
        · rw [hns] at hok
          simp only [Except.ok.injEq, Prod.mk.injEq] at hok
          right
          exact ⟨by rw [hok.1], le_refl _⟩
        · cases h2
    | some t =>
      obtain ⟨s0, e0, i0⟩ := t
      obtain ⟨⟨r0, hr0, hi0, hw0⟩, hmin⟩ := hinv
      dsimp only
      by_cases hrep : st.toMin < s0.toMin ∨
          (st.toMin = s0.toMin ∧ row.block_sweep_id < i0)
      · rw [if_pos hrep]
        refine ⟨⟨row, List.mem_append_right _ (List.mem_cons_self _ _), rfl, hns⟩, ?_⟩
        intro r hr st2 en2 hok
        rcases List.mem_append.mp hr with h | h
        · have hold := hmin r h st2 en2 hok
          omega
        · rcases List.mem_cons.mp h with rfl | h2
          · rw [hns] at hok
            simp only [Except.ok.injEq, Prod.mk.injEq] at hok
            right
            exact ⟨by rw [hok.1], le_refl _⟩
          · cases h2
      · rw [if_neg hrep]
        refine ⟨⟨r0, List.mem_append_left _ hr0, hi0, hw0⟩, ?_⟩
        intro r hr st2 en2 hok
        rcases List.mem_append.mp hr with h | h
        · exact hmin r h st2 en2 hok
        · rcases List.mem_cons.mp h with rfl | h2
          · rw [hns] at hok
            simp only [Except.ok.injEq, Prod.mk.injEq] at hok
            obtain ⟨hst2, -⟩ := hok
            subst hst2
            omega
          · cases h2

theorem eswbi_foldl_inv (ref : DateTime) (rows : List SweepingSchedule) :
    ∀ (P : List SweepingSchedule) (acc : Option (DateTime × DateTime × Nat)),
      EswbiInv ref P acc →
      EswbiInv ref (P ++ rows) (rows.foldl (eswbiStep ref) acc) := by
  induction rows with
  | nil =>
    intro P acc h
    simpa using h
  | cons row rest ih =>
    intro P acc hinv
    have hstep := eswbiStep_inv ref P acc row hinv
    have := ih (P ++ [row]) (eswbiStep ref acc row) hstep
    rw [List.append_assoc] at this
    simpa using this

theorem eswbi_inv_result (src : List SweepingSchedule) (ref : DateTime) :
    EswbiInv ref src (src.foldl (eswbiStep ref) none) := by
  have hbase : EswbiInv ref [] none := by
    intro r hr
    cases hr
  have := eswbi_foldl_inv ref src [] none hbase
  simpa using this

theorem eswbi_ok_best (bs : BlockSchedule) (src : List SweepingSchedule)
    (ref : DateTime) (s e : DateTime) (i : Nat)
    (hok : earliestSweepWindowWithBlockId bs src ref = .ok (s, e, i)) :
    (∃ row ∈ src, row.block_sweep_id = i ∧ nextSweepWindow row ref = .ok (s, e)) ∧
    (∀ row ∈ src, ∀ st en, nextSweepWindow row ref = .ok (st, en) →
      s.toMin < st.toMin ∨ (s.toMin = st.toMin ∧ i ≤ row.block_sweep_id)) := by
  have hinv := eswbi_inv_result src ref
  unfold earliestSweepWindowWithBlockId at hok
  cases hf : src.foldl (eswbiStep ref) none with
  | none => rw [hf] at hok; cases hok
  | some t =>
    obtain ⟨s1, e1, i1⟩ := t
    rw [hf] at hok
    simp only [Except.ok.injEq, Prod.mk.injEq] at hok
    obtain ⟨hs1, he1, hi1⟩ := hok
    subst hs1 he1 hi1
    rw [hf] at hinv
    exact hinv

/-- C6: when earliest_sweep_window_with_block_id succeeds, the returned
(start, end, row id) is the window of a source row whose (start,
block_sweep_id) is lexicographically minimal among all rows that resolve —
in particular, on ties in start the numerically smallest block_sweep_id
wins — and, provided row ids are pairwise distinct, the result is invariant
under any permutation of the source_schedules list. -/
theorem c6_tie_break_and_permutation_invariance (bs : BlockSchedule)
    (src src2 : List SweepingSchedule) (ref : DateTime)
    (hperm : src.Perm src2)
    (hids : (src.map (fun r => r.block_sweep_id)).Nodup)
    (s e : DateTime) (i : Nat)
    (hok : earliestSweepWindowWithBlockId bs src ref = .ok (s, e, i)) :
    (∃ row ∈ src, row.block_sweep_id = i ∧ nextSweepWindow row ref = .ok (s, e)) ∧
    (∀ row ∈ src, ∀ st en, nextSweepWindow row ref = .ok (st, en) →
      s.toMin < st.toMin ∨ (s.toMin = st.toMin ∧ i ≤ row.block_sweep_id)) ∧
    earliestSweepWindowWithBlockId bs src2 ref = .ok (s, e, i) := by
  have hbest := eswbi_ok_best bs src ref s e i hok
  refine ⟨hbest.1, hbest.2, ?_⟩
  obtain ⟨row0, hrow0, hid0, hw0⟩ := hbest.1
  cases hok2 : earliestSweepWindowWithBlockId bs src2 ref with
  | error err =>
    have hinv2 := eswbi_inv_result src2 ref
    unfold earliestSweepWindowWithBlockId at hok2
    cases hf : src2.foldl (eswbiStep ref) none with
    | none =>
      rw [hf] at hinv2
      exact absurd hw0 (hinv2 row0 (hperm.mem_iff.mp hrow0) s e)
    | some t =>
      rw [hf] at hok2
      cases hok2
  | ok t =>
    obtain ⟨s2, e2, i2⟩ := t
    have hbest2 := eswbi_ok_best bs src2 ref s2 e2 i2 hok2
    obtain ⟨row2, hrow2, hid2, hw2⟩ := hbest2.1
    have hrow2src : row2 ∈ src := hperm.mem_iff.mpr hrow2
    have hle12 := hbest.2 row2 hrow2src s2 e2 hw2
    have hle21 := hbest2.2 row0 (hperm.mem_iff.mp hrow0) s e hw0
    rw [hid2] at hle12
    rw [hid0] at hle21
    have heq : s.toMin = s2.toMin ∧ i = i2 := by omega
    have hideq : row0.block_sweep_id = row2.block_sweep_id := by
      rw [hid0, hid2]
      exact heq.2
    have hroweq : row0 = row2 :=
      List.inj_on_of_nodup_map hids hrow0 hrow2src hideq
    rw [hroweq] at hw0
    rw [hw0] at hw2
    simp only [Except.ok.injEq, Prod.mk.injEq] at hw2
    obtain ⟨hs, he⟩ := hw2
    rw [hs, he, heq.2]

/-- C6 witness: two rows with identical windows and ids 9 and 7, in either
order, give the id-7 window. -/
theorem c6_tie_break_and_permutation_invariance_witness :
    earliestSweepWindowWithBlockId bsShell [rowTue, rowTue9] (mkDT 2024 3 4 9) =
      .ok (mkDT 2024 3 5 10, mkDT 2024 3 5 12, 7) :=
  (c6_tie_break_and_permutation_invariance bsShell [rowTue9, rowTue]
    [rowTue, rowTue9] (mkDT 2024 3 4 9) (by decide) (by decide)
    (mkDT 2024 3 5 10) (mkDT 2024 3 5 12) 7 (by decide)).2.2

/-! ## Rule-merger lemmas (for C5 and C9) -/

theorem toRule_ok (s : SweepingSchedule) (w : Nat)
    (hlook : weekdayLookup (lowerString s.week_day) = some w)
    (hfh : s.from_hour < 24) (hth : s.to_hour < 24) :
    toRule s = .ok ⟨⟨[w], weeksFromFlags s⟩, ⟨s.from_hour, s.to_hour⟩, s.holidays⟩ := by
  unfold toRule
  rw [hlook]
  dsimp only
  rw [if_neg (by omega)]

/-- Conversion of a two-row group sharing one block key and geometry. -/
theorem stb_two_rows (s1 s2 : SweepingSchedule) (r1 r2 : RecurringRule)
    (hk : blockKeyOf s2 = blockKeyOf s1)
    (hline : s2.line = s1.line)
    (ht1 : toRule s1 = .ok r1) (ht2 : toRule s2 = .ok r2) :
    sweepingSchedulesToBlocks [s1, s2] =
      .ok [⟨blockKeyOf s1, mergeRules [r1, r2], s1.line⟩] := by
  have hkeys : groupKeys [s1, s2] = [blockKeyOf s1] := by
    unfold groupKeys insertKey
    simp only [List.foldl_cons, List.foldl_nil, List.not_mem_nil, if_false,
      List.nil_append, hk]
    simp
  have hfilter : List.filter (fun s => decide (blockKeyOf s = blockKeyOf s1))
      [s1, s2] = [s1, s2] := by
    simp [List.filter, hk]
  unfold sweepingSchedulesToBlocks
  rw [hkeys]
  unfold mapGroups
  rw [hfilter]
  unfold processGroup
  dsimp only
  unfold badGeometry badGeometry
  rw [if_pos hline]
  dsimp only
  unfold mapToRules mapToRules mapToRules
  rw [ht1, ht2]
  rfl

theorem mergeInto_first_compatible (pre post : List RecurringRule)
    (e r : RecurringRule)
    (hpre : ∀ p ∈ pre, mergeCompatible p r = false)
    (he : mergeCompatible e r = true) :
    mergeInto (pre ++ e :: post) r = pre ++ absorbWeekdays e r :: post := by
  induction pre with
  | nil =>
    simp only [List.nil_append]
    unfold mergeInto
    rw [if_pos he]
  | cons p pre2 ih =>
    have hp := hpre p (List.mem_cons_self _ _)
    simp only [List.cons_append]
    unfold mergeInto
    rw [if_neg (by rw [hp]; exact Bool.false_ne_true)]
    rw [ih (fun q hq => hpre q (List.mem_cons_of_mem _ hq))]

theorem mem_unionWeekdays (a b : List Nat) (x : Nat) :
    x ∈ unionWeekdays a b ↔ x ∈ a ∨ x ∈ b := by
  unfold unionWeekdays sortWeeks
  rw [(List.perm_insertionSort (· ≤ ·) _).mem_iff]
  rw [List.mem_append, List.mem_filter]
  constructor
  · rintro (h | ⟨h, -⟩)
    · exact Or.inl h
    · exact Or.inr h
  · rintro (h | h)
    · exact Or.inl h
    · by_cases ha : x ∈ a
      · exact Or.inl ha
      · exact Or.inr ⟨h, by simpa using ha⟩

/-- C5: merging a two-row group that differs only in weekday yields exactly
one rule whose weekday set is the union of the two weekdays; rows that
differ in weeks_of_month yield two separate rules in original row order;
in general a rule is unioned into the first already-emitted compatible
merged rule (identical time window, weeks and holiday flag), leaving the
others untouched; and the weekday union has set-union semantics. -/
theorem c5_greedy_weekday_merge :
    (∀ (s1 s2 : SweepingSchedule) (w1 w2 : Nat),
      blockKeyOf s2 = blockKeyOf s1 → s2.line = s1.line →
      weekdayLookup (lowerString s1.week_day) = some w1 →
      weekdayLookup (lowerString s2.week_day) = some w2 →
      s1.from_hour < 24 → s1.to_hour < 24 →
      s2.from_hour = s1.from_hour → s2.to_hour = s1.to_hour →
      weeksFromFlags s2 = weeksFromFlags s1 →
      s2.holidays = s1.holidays →
      sweepingSchedulesToBlocks [s1, s2] =
        .ok [⟨blockKeyOf s1,
              [⟨⟨unionWeekdays [w1] [w2], weeksFromFlags s1⟩,
                ⟨s1.from_hour, s1.to_hour⟩, s1.holidays⟩], s1.line⟩]) ∧
    (∀ (s1 s2 : SweepingSchedule) (w1 w2 : Nat),
      blockKeyOf s2 = blockKeyOf s1 → s2.line = s1.line →
      weekdayLookup (lowerString s1.week_day) = some w1 →
      weekdayLookup (lowerString s2.week_day) = some w2 →
      s1.from_hour < 24 → s1.to_hour < 24 → s2.from_hour < 24 → s2.to_hour < 24 →
      weeksFromFlags s1 ≠ weeksFromFlags s2 →
      sweepingSchedulesToBlocks [s1, s2] =
        .ok [⟨blockKeyOf s1,
              [⟨⟨[w1], weeksFromFlags s1⟩, ⟨s1.from_hour, s1.to_hour⟩, s1.holidays⟩,
               ⟨⟨[w2], weeksFromFlags s2⟩, ⟨s2.from_hour, s2.to_hour⟩, s2.holidays⟩],
              s1.line⟩]) ∧
    (∀ (pre post : List RecurringRule) (e r : RecurringRule),
      (∀ p ∈ pre, mergeCompatible p r = false) → mergeCompatible e r = true →
      mergeInto (pre ++ e :: post) r = pre ++ absorbWeekdays e r :: post) ∧
    (∀ (a b : List Nat) (x : Nat), x ∈ unionWeekdays a b ↔ x ∈ a ∨ x ∈ b) := by
  refine ⟨?_, ?_, mergeInto_first_compatible, mem_unionWeekdays⟩
  · intro s1 s2 w1 w2 hk hline hl1 hl2 hfh hth hfheq htheq hweeks hholeq
    have ht2 : toRule s2 =
        .ok ⟨⟨[w2], weeksFromFlags s1⟩, ⟨s1.from_hour, s1.to_hour⟩, s1.holidays⟩ := by
      rw [toRule_ok s2 w2 hl2 (by omega) (by omega), hweeks, hfheq, htheq, hholeq]
    rw [stb_two_rows s1 s2 _ _ hk hline (toRule_ok s1 w1 hl1 hfh hth) ht2]
    have hcompat : mergeCompatible
        ⟨⟨[w1], weeksFromFlags s1⟩, ⟨s1.from_hour, s1.to_hour⟩, s1.holidays⟩
        ⟨⟨[w2], weeksFromFlags s1⟩, ⟨s1.from_hour, s1.to_hour⟩, s1.holidays⟩ = true := by
      simp [mergeCompatible]
    have hmr := mergeInto_first_compatible [] []
      ⟨⟨[w1], weeksFromFlags s1⟩, ⟨s1.from_hour, s1.to_hour⟩, s1.holidays⟩
      ⟨⟨[w2], weeksFromFlags s1⟩, ⟨s1.from_hour, s1.to_hour⟩, s1.holidays⟩
      (by intro p hp; cases hp) hcompat
    simp only [List.nil_append] at hmr
    unfold mergeRules
    simp only [List.foldl_cons, List.foldl_nil]
    rw [show mergeInto []
        (⟨⟨[w1], weeksFromFlags s1⟩, ⟨s1.from_hour, s1.to_hour⟩, s1.holidays⟩ : RecurringRule) =
        [⟨⟨[w1], weeksFromFlags s1⟩, ⟨s1.from_hour, s1.to_hour⟩, s1.holidays⟩] from rfl]
    rw [hmr]
    rfl
  · intro s1 s2 w1 w2 hk hline hl1 hl2 hfh1 hth1 hfh2 hth2 hweeks
    rw [stb_two_rows s1 s2 _ _ hk hline (toRule_ok s1 w1 hl1 hfh1 hth1)
      (toRule_ok s2 w2 hl2 hfh2 hth2)]
    have hcompat : mergeCompatible
        ⟨⟨[w1], weeksFromFlags s1⟩, ⟨s1.from_hour, s1.to_hour⟩, s1.holidays⟩
        ⟨⟨[w2], weeksFromFlags s2⟩, ⟨s2.from_hour, s2.to_hour⟩, s2.holidays⟩ = false := by
      unfold mergeCompatible
      have : decide (weeksFromFlags s1 = weeksFromFlags s2) = false :=
        decide_eq_false hweeks
      dsimp only
      rw [this]
      simp
    unfold mergeRules
    simp only [List.foldl_cons, List.foldl_nil]
    rw [show mergeInto []
        (⟨⟨[w1], weeksFromFlags s1⟩, ⟨s1.from_hour, s1.to_hour⟩, s1.holidays⟩ : RecurringRule) =
        [⟨⟨[w1], weeksFromFlags s1⟩, ⟨s1.from_hour, s1.to_hour⟩, s1.holidays⟩] from rfl]
    unfold mergeInto
    rw [if_neg (by rw [hcompat]; exact Bool.false_ne_true)]
    rfl

/-- C5 witness: the Tuesday and Thursday rows with identical hours, weeks
and holiday flag merge into a single rule on weekdays {Tue, Thu}. -/
theorem c5_greedy_weekday_merge_witness :
    sweepingSchedulesToBlocks [rowTue, rowThu] =
      .ok [⟨blockKeyOf rowTue,
            [⟨⟨unionWeekdays [1] [3], weeksFromFlags rowTue⟩,
              ⟨rowTue.from_hour, rowTue.to_hour⟩, rowTue.holidays⟩], rowTue.line⟩] :=
  c5_greedy_weekday_merge.1 rowTue rowThu 1 3 (by decide) (by decide) (by decide)
    (by decide) (by decide) (by decide) (by decide) (by decide) (by decide) (by decide)

/-! ## Geometry-consistency lemmas (for C9) -/

theorem badGeometry_none_iff (g : List Coord) (l : List SweepingSchedule) :
    badGeometry g l = none ↔ ∀ s ∈ l, s.line = g := by
  induction l with
  | nil => simp [badGeometry]
  | cons s rest ih =>
    unfold badGeometry
    by_cases h : s.line = g
    · rw [if_pos h, ih]
      constructor
      · intro hall s2 hs2
        rcases List.mem_cons.mp hs2 with rfl | h2
        · exact h
        · exact hall s2 h2
      · intro hall s2 hs2
        exact hall s2 (List.mem_cons_of_mem _ hs2)
    · rw [if_neg h]
      constructor
      · intro hcon; cases hcon
      · intro hall
        exact absurd (hall s (List.mem_cons_self _ _)) h

theorem badGeometry_some (g : List Coord) (l : List SweepingSchedule)
    (g2 : List Coord) :
    badGeometry g l = some g2 → g2 ≠ g ∧ ∃ s ∈ l, s.line = g2 := by
  induction l with
  | nil => intro h; cases h
  | cons s rest ih =>
    unfold badGeometry
    by_cases h : s.line = g
    · rw [if_pos h]
      intro h2
      obtain ⟨hne, s2, hs2, hl⟩ := ih h2
      exact ⟨hne, s2, List.mem_cons_of_mem _ hs2, hl⟩
    · rw [if_neg h]
      intro h2
      injection h2 with h2
      subst h2
      exact ⟨h, s, List.mem_cons_self _ _, rfl⟩

theorem mapToRules_ok (l : List SweepingSchedule)
    (hval : ∀ s ∈ l, (weekdayLookup (lowerString s.week_day)).isSome ∧
      s.from_hour < 24 ∧ s.to_hour < 24) :
    ∃ rs, mapToRules l = .ok rs := by
  induction l with
  | nil => exact ⟨[], rfl⟩
  | cons s rest ih =>
    obtain ⟨hsome, hfh, hth⟩ := hval s (List.mem_cons_self _ _)
    obtain ⟨w, hw⟩ := Option.isSome_iff_exists.mp hsome
    obtain ⟨rs, hrs⟩ := ih (fun q hq => hval q (List.mem_cons_of_mem _ hq))
    refine ⟨⟨⟨[w], weeksFromFlags s⟩, ⟨s.from_hour, s.to_hour⟩, s.holidays⟩ :: rs, ?_⟩
    unfold mapToRules
    rw [toRule_ok s w hw hfh hth, hrs]

theorem processGroup_ok_of_consistent (k : BlockKey)
    (first : SweepingSchedule) (rest : List SweepingSchedule)
    (hgeom : ∀ s ∈ rest, s.line = first.line)
    (hval : ∀ s ∈ first :: rest, (weekdayLookup (lowerString s.week_day)).isSome ∧
      s.from_hour < 24 ∧ s.to_hour < 24) :
    ∃ bs, processGroup k (first :: rest) = .ok bs := by
  unfold processGroup
  dsimp only
  rw [(badGeometry_none_iff _ _).mpr hgeom]
  obtain ⟨rs, hrs⟩ := mapToRules_ok _ hval
  rw [hrs]
  exact ⟨_, rfl⟩

theorem processGroup_geom_err (k : BlockKey) (first : SweepingSchedule)
    (rest : List SweepingSchedule) (g2 : List Coord)
    (hbad : badGeometry first.line rest = some g2) :
    processGroup k (first :: rest) = .error (.geometryMismatch k first.line g2) := by
  unfold processGroup
  dsimp only
  rw [hbad]

theorem mapGroups_error (ss : List SweepingSchedule) (keys : List BlockKey)
    (hall : ∀ k ∈ keys,
      (∃ bs, processGroup k (ss.filter (fun s => decide (blockKeyOf s = k))) = .ok bs) ∨
      (∃ g1 g2, g1 ≠ g2 ∧
        processGroup k (ss.filter (fun s => decide (blockKeyOf s = k))) =
          .error (.geometryMismatch k g1 g2)))
    (hex : ∃ k ∈ keys, ∀ bs,
      processGroup k (ss.filter (fun s => decide (blockKeyOf s = k))) ≠ .ok bs) :
    ∃ k g1 g2, g1 ≠ g2 ∧ mapGroups ss keys = .error (.geometryMismatch k g1 g2) := by
  induction keys with
  | nil =>
    obtain ⟨k, hk, -⟩ := hex
    cases hk
  | cons k0 ks ih =>
    rcases hall k0 (List.mem_cons_self _ _) with ⟨bs, hbs⟩ | ⟨g1, g2, hne, herr⟩
    · unfold mapGroups
      rw [hbs]
      obtain ⟨k, hk, hne2⟩ := hex
      have hktail : k ∈ ks := by
        rcases List.mem_cons.mp hk with rfl | h
        · exact absurd hbs (hne2 bs)
        · exact h
      obtain ⟨k', g1, g2, hne, herr⟩ :=
        ih (fun q hq => hall q (List.mem_cons_of_mem _ hq)) ⟨k, hktail, hne2⟩
      rw [herr]
      exact ⟨k', g1, g2, hne, rfl⟩
    · unfold mapGroups
      rw [herr]
      exact ⟨k0, g1, g2, hne, rfl⟩

theorem mem_groupKeys_aux (ss : List SweepingSchedule) :
    ∀ (acc : List BlockKey) (k : BlockKey),
      (k ∈ acc ∨ ∃ s ∈ ss, blockKeyOf s = k) →
      k ∈ ss.foldl (fun ks s => insertKey ks (blockKeyOf s)) acc := by
  induction ss with
  | nil =>
    rintro acc k (h | ⟨s, hs, -⟩)
    · exact h
    · cases hs
  | cons s rest ih =>
    rintro acc k h
    simp only [List.foldl_cons]
    apply ih
    rcases h with h | ⟨s2, hs2, hk⟩
    · left
      unfold insertKey
      split
      · exact h
      · exact List.mem_append_left _ h
    · rcases List.mem_cons.mp hs2 with rfl | h2
      · left
        subst hk
        unfold insertKey
        split
        · assumption
        · exact List.mem_append_right _ (List.mem_cons_self _ _)
      · right
        exact ⟨s2, h2, hk⟩

theorem mem_groupKeys (ss : List SweepingSchedule) (s : SweepingSchedule)
    (hs : s ∈ ss) : blockKeyOf s ∈ groupKeys ss :=
  mem_groupKeys_aux ss [] _ (Or.inr ⟨s, hs, rfl⟩)

theorem groupKeys_mem_aux (ss : List SweepingSchedule) :
    ∀ (acc : List BlockKey) (k : BlockKey),
      k ∈ ss.foldl (fun ks s => insertKey ks (blockKeyOf s)) acc →
      k ∈ acc ∨ ∃ s ∈ ss, blockKeyOf s = k := by
  induction ss with
  | nil =>
    intro acc k h
    exact Or.inl h
  | cons s rest ih =>
    intro acc k h
    simp only [List.foldl_cons] at h
    rcases ih _ _ h with h2 | ⟨s2, hs2, hk⟩
    · unfold insertKey at h2
      split at h2
      · exact Or.inl h2
      · rcases List.mem_append.mp h2 with h3 | h3
        · exact Or.inl h3
        · rcases List.mem_cons.mp h3 with rfl | h4
          · exact Or.inr ⟨s, List.mem_cons_self _ _, rfl⟩
          · cases h4
    · exact Or.inr ⟨s2, List.mem_cons_of_mem _ hs2, hk⟩

theorem groupKeys_mem (ss : List SweepingSchedule) (k : BlockKey)
    (hk : k ∈ groupKeys ss) : ∃ s ∈ ss, blockKeyOf s = k := by
  rcases groupKeys_mem_aux ss [] k hk with h | h
  · cases h
  · exact h

/-- C9: two rows under the same BlockKey with different line geometry make
sweeping_schedules_to_blocks fail with a geometry-mismatch error naming a
block and two distinct conflicting geometries; no list of BlockSchedules is
produced (rows are assumed well-formed: known weekday label, valid hours). -/
theorem c9_geometry_mismatch_error (ss : List SweepingSchedule)
    (hval : ∀ s ∈ ss, (weekdayLookup (lowerString s.week_day)).isSome ∧
      s.from_hour < 24 ∧ s.to_hour < 24)
    (s1 s2 : SweepingSchedule) (h1 : s1 ∈ ss) (h2 : s2 ∈ ss)
    (hkey : blockKeyOf s1 = blockKeyOf s2) (hgeom : s1.line ≠ s2.line) :
    ∃ k g1 g2, g1 ≠ g2 ∧
      sweepingSchedulesToBlocks ss = .error (.geometryMismatch k g1 g2) := by
  unfold sweepingSchedulesToBlocks
  apply mapGroups_error
  · intro k hk
    obtain ⟨s0, hs0, hbk0⟩ := groupKeys_mem ss k hk
    have hs0g : s0 ∈ ss.filter (fun s => decide (blockKeyOf s = k)) :=
      List.mem_filter.mpr ⟨hs0, by simp [hbk0]⟩
    cases hg : ss.filter (fun s => decide (blockKeyOf s = k)) with
    | nil =>
      rw [hg] at hs0g
      cases hs0g
    | cons first rest =>
      have hvalg : ∀ s ∈ first :: rest,
          (weekdayLookup (lowerString s.week_day)).isSome ∧
          s.from_hour < 24 ∧ s.to_hour < 24 := by
        intro s hs
        have hmem : s ∈ ss.filter (fun s => decide (blockKeyOf s = k)) := by
          rw [hg]; exact hs
        exact hval s (List.mem_filter.mp hmem).1
      cases hbg : badGeometry first.line rest with
      | none =>
        exact Or.inl (processGroup_ok_of_consistent k first rest
          ((badGeometry_none_iff _ _).mp hbg) hvalg)
      | some g2 =>
        refine Or.inr ⟨first.line, g2, ?_, ?_⟩
        · exact Ne.symm (badGeometry_some _ _ _ hbg).1
        · exact processGroup_geom_err k first rest g2 hbg
  · refine ⟨blockKeyOf s1, mem_groupKeys ss s1 h1, ?_⟩
    intro bs hbs
    have h1g : s1 ∈ ss.filter (fun s => decide (blockKeyOf s = blockKeyOf s1)) :=
      List.mem_filter.mpr ⟨h1, by simp⟩
    have h2g : s2 ∈ ss.filter (fun s => decide (blockKeyOf s = blockKeyOf s1)) :=
      List.mem_filter.mpr ⟨h2, by simp [hkey]⟩
    cases hg : ss.filter (fun s => decide (blockKeyOf s = blockKeyOf s1)) with
    | nil =>
      rw [hg] at h1g
      cases h1g
    | cons first rest =>
      rw [hg] at h1g h2g hbs
      have hbad : ¬ ∀ s ∈ rest, s.line = first.line := by
        intro hall
        have hline1 : s1.line = first.line := by
          rcases List.mem_cons.mp h1g with rfl | h
          · rfl
          · exact hall _ h
        have hline2 : s2.line = first.line := by
          rcases List.mem_cons.mp h2g with rfl | h
          · rfl
          · exact hall _ h
        exact hgeom (hline1.trans hline2.symm)
      cases hbg : badGeometry first.line rest with
      | none => exact hbad ((badGeometry_none_iff _ _).mp hbg)
      | some g2 =>
        rw [processGroup_geom_err _ first rest g2 hbg] at hbs
        cases hbs

/-- C9 witness: the Tuesday row and a Thursday row carrying a different
line raise the geometry error. -/
theorem c9_geometry_mismatch_error_witness :
    ∃ k g1 g2, g1 ≠ g2 ∧
      sweepingSchedulesToBlocks [rowTue, rowThuGeom] =
        .error (.geometryMismatch k g1 g2) :=
  c9_geometry_mismatch_error [rowTue, rowThuGeom] (by decide)
    rowTue rowThuGeom (by decide) (by decide) (by decide) (by decide)

end SweepDreams
